import Mathlib

set_option linter.unusedSectionVars false

/-!
Verification of the numerical core of the `ai-website` repository
(`src/lib/riskBudgeting.ts`, `src/lib/optimizerES.ts`, `src/lib/backtest.ts`).

The TypeScript source is shallowly embedded here.  Modelling conventions:

* JavaScript `number` arithmetic is modelled exactly: purely rational
  computations are embedded generically over a `LinearOrderedField`
  (instantiated at `ℚ` for decidable evaluation and at `ℝ` inside the
  optimizers), while computations involving `Math.sqrt` / `Math.exp` /
  `Math.log` / `Math.pow` are embedded over `ℝ` with Mathlib's
  `Real.sqrt`, `Real.exp`, `Real.log`, `Real.rpow`.
* Division by zero is totalized as in Lean (`x / 0 = 0`); in JavaScript
  it yields `Infinity`/`NaN`.  No theorem below depends on a division
  by zero except where explicitly noted.
* JavaScript numeric literals such as `1e-12` are modelled by the exact
  rationals they denote in the source text.
* `throw` in the source is modelled by `Except DataError`.
* Arrays are `List`s; `arr[i]` reads out of range (which the source never
  performs on the paths covered by the theorems) are totalized by `getD`.
-/

namespace Port

/-- Error type standing for the exceptions thrown by the TS core
(`throw new Error(...)`). The constructor names encode the messages. -/
inductive DataError where
  /-- "Target budgets length must match number of assets" (riskBudgeting.ts:171) -/
  | budgetsLength : DataError
  /-- "Target budgets must sum to 1. Current sum: ..." (riskBudgeting.ts:175) -/
  | budgetsSum : DataError
  /-- "mu is empty." (optimizerES.ts:259) -/
  | muEmpty : DataError
  /-- "sigma must be n×n matching mu." (optimizerES.ts:261) -/
  | sigmaShape : DataError
  /-- "No data" (backtest.ts:209, trailing window shorter than 2 points) -/
  | noData : DataError
  deriving DecidableEq, Repr

section GenericHelpers

variable {α : Type} [LinearOrderedField α]

/-- `dot` from optimizerES.ts (also the reduce in `calculatePortfolioVolatility`). -/
def dot (a b : List α) : α := ((a.zip b).map fun p => p.1 * p.2).sum

/-- `matVec` from optimizerES.ts / `matrixVectorMultiply` from riskBudgeting.ts:
`A.map(row => row.reduce((s, v, i) => s + v * x[i], 0))`. -/
def matVec (A : List (List α)) (x : List α) : List α :=
  A.map fun row => dot row x

/-- `quadraticForm(x, A) = dot(x, matVec(A, x))` from optimizerES.ts. -/
def quadraticForm (x : List α) (A : List (List α)) : α := dot x (matVec A x)

/-- `subtract` from optimizerES.ts. -/
def subtract (a b : List α) : List α := (a.zip b).map fun p => p.1 - p.2

/-- `scale` from optimizerES.ts. -/
def scaleVec (a : List α) (s : α) : List α := a.map fun v => v * s

/-- `clamp(v, lo, hi) = Math.min(Math.max(v, lo), hi)` from optimizerES.ts. -/
def clamp (v lo hi : α) : α := min (max v lo) hi

/-- Upper bounds in the ES optimizer are `number | Infinity`; we model
`Infinity` as `none`.  `clampUB v ub` is `clamp(v, 0, ub)` where
`clamp(v, 0, Infinity) = Math.max(v, 0)`. -/
def clampUB (v : α) (ub : Option α) : α :=
  match ub with
  | none => max v 0
  | some u => min (max v 0) u

/-- The `1e-12` residual tolerance of `projectFeasible` (optimizerES.ts:237). -/
def tolProj : α := 1 / (10 : α) ^ 12

/-- One coordinate of the projection loop state: current value `x`,
upper bound `ub` (`none` = `Infinity`), and membership in the `active` set. -/
structure PCoord (α : Type) where
  x : α
  ub : Option α
  act : Bool
  deriving DecidableEq, Repr

/-- Number of still-adjustable coordinates (`active.size`). -/
def countAct : List (PCoord α) → ℕ
  | [] => 0
  | c :: t => (if c.act then 1 else 0) + countAct t

/-- Current sum of the iterate (`x.reduce((a,b) => a + b, 0)`). -/
def sumX (l : List (PCoord α)) : α := (l.map fun c => c.x).sum

/-- One coordinate update of a water-filling pass (optimizerES.ts:243-248):
active coordinates move by `-delta`, are re-clamped, and are removed from
the active set when the clamped value hits `0` or the coordinate's cap. -/
def passUpdate (delta : α) (c : PCoord α) : PCoord α :=
  if c.act then
    let v := clampUB (c.x - delta) c.ub
    { x := v, ub := c.ub, act := if v = 0 ∨ c.ub = some v then false else true }
  else c

/-- The `for (let iter = 0; iter < 1000; iter++)` water-filling loop of
`projectFeasible` (optimizerES.ts:234-251), with the fuel made explicit. -/
def projLoop : ℕ → List (PCoord α) → List (PCoord α)
  | 0, l => l
  | fuel + 1, l =>
    let diff := sumX l - 1
    if |diff| < tolProj then l
    else if countAct l = 0 then l
    else projLoop fuel (l.map (passUpdate (diff / (countAct l : α))))

/-- `projectFeasible(w, upperBounds)` from optimizerES.ts:228-253: clamp into
`[0, ub_i]`, then run at most 1000 water-filling passes. -/
def projectFeasible (w : List α) (ub : List (Option α)) : List α :=
  (projLoop 1000 ((w.zip ub).map fun p => ⟨clampUB p.1 p.2, p.2, true⟩)).map fun c => c.x

/-- Unfolding lemma: the projection loop exits when the residual is below
the `1e-12` tolerance. -/
theorem projLoop_exit1 (fuel : ℕ) (l : List (PCoord α)) (h : |sumX l - 1| < tolProj) :
    projLoop (fuel + 1) l = l := by
  rw [projLoop]; simp only [if_pos h]

/-- Unfolding lemma: the projection loop exits when no adjustable
coordinates remain. -/
theorem projLoop_exit2 (fuel : ℕ) (l : List (PCoord α)) (h : ¬ |sumX l - 1| < tolProj)
    (h2 : countAct l = 0) : projLoop (fuel + 1) l = l := by
  rw [projLoop]; simp only [if_neg h, if_pos h2]

/-- Unfolding lemma: one water-filling pass of the projection loop. -/
theorem projLoop_step (fuel : ℕ) (l : List (PCoord α)) (h : ¬ |sumX l - 1| < tolProj)
    (h2 : ¬ countAct l = 0) :
    projLoop (fuel + 1) l
      = projLoop fuel (l.map (passUpdate ((sumX l - 1) / (countAct l : α)))) := by
  rw [projLoop]; simp only [if_neg h, if_neg h2]

end GenericHelpers

section ProjLemmas

variable {α : Type} [LinearOrderedField α]

/-- Invariant: the coordinate's cap is nonnegative (true of the optimizer's
`upperBounds`, which are `Math.max(0, c)` or `Infinity`). -/
def ubOk (c : PCoord α) : Prop := ∀ u, c.ub = some u → 0 ≤ u

/-- Invariant: the coordinate lies in `[0, ub]`. -/
def inB (c : PCoord α) : Prop := 0 ≤ c.x ∧ ∀ u, c.ub = some u → c.x ≤ u

/-- Combined per-coordinate invariant of the projection loop. -/
def goodC (c : PCoord α) : Prop := ubOk c ∧ inB c

@[simp] theorem sumX_nil : sumX ([] : List (PCoord α)) = 0 := rfl

theorem sumX_cons (c : PCoord α) (t : List (PCoord α)) : sumX (c :: t) = c.x + sumX t := by
  simp [sumX]

theorem countAct_cons (c : PCoord α) (t : List (PCoord α)) :
    countAct (c :: t) = (if c.act then 1 else 0) + countAct t := rfl

theorem clampUB_nonneg (v : α) (ub : Option α) (h : ∀ u, ub = some u → 0 ≤ u) :
    0 ≤ clampUB v ub := by
  cases ub with
  | none => exact le_max_right v 0
  | some u => exact le_min (le_max_right v 0) (h u rfl)

theorem clampUB_le (v u : α) (ub : Option α) (h : ub = some u) : clampUB v ub ≤ u := by
  subst h; simp [clampUB]

theorem passUpdate_ub (delta : α) (c : PCoord α) : (passUpdate delta c).ub = c.ub := by
  unfold passUpdate; split <;> rfl

theorem passUpdate_inactive (delta : α) (c : PCoord α) (h : c.act = false) :
    passUpdate delta c = c := by
  unfold passUpdate; rw [h]; rfl

theorem passUpdate_goodC (delta : α) (c : PCoord α) (h : goodC c) :
    goodC (passUpdate delta c) := by
  obtain ⟨hub, _, _⟩ := h
  unfold passUpdate
  split
  · refine ⟨?_, clampUB_nonneg _ _ hub, ?_⟩
    · intro u hu; exact hub u hu
    · intro u hu; exact clampUB_le _ _ _ hu
  · exact ⟨hub, by assumption, by assumption⟩

/-- A pass never reactivates a coordinate. -/
theorem passUpdate_act_le (delta : α) (c : PCoord α) :
    (passUpdate delta c).act = true → c.act = true := by
  unfold passUpdate; split <;> simp_all

theorem countAct_map_pass_le (delta : α) (l : List (PCoord α)) :
    countAct (l.map (passUpdate delta)) ≤ countAct l := by
  induction l with
  | nil => simp [countAct]
  | cons c t ih =>
    simp only [List.map_cons, countAct_cons]
    by_cases hp : (passUpdate delta c).act = true
    · rw [if_pos hp, if_pos (passUpdate_act_le delta c hp)]; omega
    · rw [if_neg hp]
      split <;> omega

theorem countAct_eq_zero (l : List (PCoord α)) (h : countAct l = 0) :
    ∀ c ∈ l, c.act = false := by
  induction l with
  | nil => simp
  | cons c t ih =>
    rw [countAct_cons] at h
    by_cases hc : c.act = true
    · rw [if_pos hc] at h; omega
    · have hc' : c.act = false := by simpa using hc
      rw [if_neg hc] at h
      intro d hd
      rcases List.mem_cons.mp hd with rfl | hmem
      · exact hc'
      · exact ih (by omega) d hmem

theorem sumX_eq_zero (l : List (PCoord α)) (h : ∀ c ∈ l, c.x = 0) : sumX l = 0 := by
  unfold sumX
  refine List.sum_eq_zero ?_
  intro x hx
  obtain ⟨c, hc, rfl⟩ := List.mem_map.mp hx
  exact h c hc

/-- Sum of `x - delta` over active coordinates and `x` over inactive ones. -/
theorem sum_if_active (l : List (PCoord α)) (delta : α) :
    (l.map fun c => if c.act then c.x - delta else c.x).sum
      = sumX l - countAct l * delta := by
  induction l with
  | nil => simp [countAct]
  | cons c t ih =>
    simp only [List.map_cons, List.sum_cons, ih, sumX_cons, countAct_cons]
    by_cases hc : c.act = true
    · rw [if_pos hc, if_pos hc]; push_cast; ring
    · rw [if_neg hc, if_neg hc]; push_cast; ring

theorem tolProj_pos : (0 : α) < tolProj := by
  unfold tolProj; positivity

theorem sumX_map_eq (l : List (PCoord α)) (f : PCoord α → PCoord α) :
    sumX (l.map f) = (l.map fun c => (f c).x).sum := by
  simp only [sumX, List.map_map]; rfl

/-- In a shrinking pass (`0 ≤ delta`) each coordinate loses at most `delta`. -/
theorem passUpdate_x_ge_shrink (delta : α) (c : PCoord α) (hδ : 0 ≤ delta) (h : goodC c) :
    (if c.act then c.x - delta else c.x) ≤ (passUpdate delta c).x := by
  obtain ⟨hub, hx0, hxu⟩ := h
  by_cases hc : c.act = true
  · rw [if_pos hc]
    unfold passUpdate
    rw [if_pos hc]
    show c.x - delta ≤ clampUB (c.x - delta) c.ub
    cases hu : c.ub with
    | none => exact le_max_left _ _
    | some u => exact le_min (le_max_left _ _) (le_trans (by linarith) (hxu u hu))
  · rw [if_neg hc, passUpdate_inactive _ _ (by simpa using hc)]

/-- In a shrinking pass (`0 ≤ delta`) no coordinate grows. -/
theorem passUpdate_x_le_self (delta : α) (c : PCoord α) (hδ : 0 ≤ delta) (h : goodC c) :
    (passUpdate delta c).x ≤ c.x := by
  obtain ⟨hub, hx0, hxu⟩ := h
  by_cases hc : c.act = true
  · unfold passUpdate
    rw [if_pos hc]
    show clampUB (c.x - delta) c.ub ≤ c.x
    cases hu : c.ub with
    | none => exact max_le (by linarith) hx0
    | some u => exact le_trans (min_le_left _ _) (max_le (by linarith) hx0)
  · rw [passUpdate_inactive _ _ (by simpa using hc)]

/-- In a growing pass (`delta ≤ 0`) each coordinate gains at most `-delta`. -/
theorem passUpdate_x_le_grow (delta : α) (c : PCoord α) (hδ : delta ≤ 0) (h : goodC c) :
    (passUpdate delta c).x ≤ (if c.act then c.x - delta else c.x) := by
  obtain ⟨hub, hx0, hxu⟩ := h
  by_cases hc : c.act = true
  · rw [if_pos hc]
    unfold passUpdate
    rw [if_pos hc]
    show clampUB (c.x - delta) c.ub ≤ c.x - delta
    cases hu : c.ub with
    | none => exact max_le le_rfl (by linarith)
    | some u => exact le_trans (min_le_left _ _) (max_le le_rfl (by linarith))
  · rw [if_neg hc, passUpdate_inactive _ _ (by simpa using hc)]

/-- In a growing pass (`delta ≤ 0`) no coordinate shrinks. -/
theorem passUpdate_x_ge_self (delta : α) (c : PCoord α) (hδ : delta ≤ 0) (h : goodC c) :
    c.x ≤ (passUpdate delta c).x := by
  obtain ⟨hub, hx0, hxu⟩ := h
  by_cases hc : c.act = true
  · unfold passUpdate
    rw [if_pos hc]
    show c.x ≤ clampUB (c.x - delta) c.ub
    cases hu : c.ub with
    | none => exact le_trans (by linarith) (le_max_left _ _)
    | some u => exact le_min (le_trans (by linarith) (le_max_left _ _)) (hxu u hu)
  · rw [passUpdate_inactive _ _ (by simpa using hc)]

theorem pass_sumX_ge (delta : α) (l : List (PCoord α)) (hδ : 0 ≤ delta)
    (hg : ∀ c ∈ l, goodC c) :
    sumX l - countAct l * delta ≤ sumX (l.map (passUpdate delta)) := by
  rw [sumX_map_eq, ← sum_if_active l delta]
  exact List.sum_le_sum fun c hc => passUpdate_x_ge_shrink delta c hδ (hg c hc)

theorem pass_sumX_le_self (delta : α) (l : List (PCoord α)) (hδ : 0 ≤ delta)
    (hg : ∀ c ∈ l, goodC c) :
    sumX (l.map (passUpdate delta)) ≤ sumX l := by
  rw [sumX_map_eq]
  calc (l.map fun c => (passUpdate delta c).x).sum
      ≤ (l.map fun c => c.x).sum :=
        List.sum_le_sum fun c hc => passUpdate_x_le_self delta c hδ (hg c hc)
    _ = sumX l := rfl

theorem pass_sumX_le (delta : α) (l : List (PCoord α)) (hδ : delta ≤ 0)
    (hg : ∀ c ∈ l, goodC c) :
    sumX (l.map (passUpdate delta)) ≤ sumX l - countAct l * delta := by
  rw [sumX_map_eq, ← sum_if_active l delta]
  exact List.sum_le_sum fun c hc => passUpdate_x_le_grow delta c hδ (hg c hc)

theorem pass_sumX_ge_self (delta : α) (l : List (PCoord α)) (hδ : delta ≤ 0)
    (hg : ∀ c ∈ l, goodC c) :
    sumX l ≤ sumX (l.map (passUpdate delta)) := by
  rw [sumX_map_eq]
  calc sumX l = (l.map fun c => c.x).sum := rfl
    _ ≤ (l.map fun c => (passUpdate delta c).x).sum :=
        List.sum_le_sum fun c hc => passUpdate_x_ge_self delta c hδ (hg c hc)

/-- A surviving active coordinate moved by exactly `delta`. -/
theorem passUpdate_x_of_kept (delta : α) (c : PCoord α) (h : goodC c)
    (hc : c.act = true) (hp : (passUpdate delta c).act = true) :
    (passUpdate delta c).x = c.x - delta := by
  obtain ⟨hub, hx0, hxu⟩ := h
  unfold passUpdate at hp ⊢
  rw [if_pos hc] at hp ⊢
  show clampUB (c.x - delta) c.ub = c.x - delta
  simp only at hp
  by_cases hrem : clampUB (c.x - delta) c.ub = 0 ∨ c.ub = some (clampUB (c.x - delta) c.ub)
  · rw [if_pos hrem] at hp; cases hp
  · push_neg at hrem
    obtain ⟨hne0, hneu⟩ := hrem
    cases hu : c.ub with
    | none =>
      show max (c.x - delta) 0 = c.x - delta
      rcases le_or_lt (c.x - delta) 0 with hle | hlt
      · exfalso; apply hne0; rw [hu]; show max (c.x - delta) 0 = 0; exact max_eq_right hle
      · exact max_eq_left hlt.le
    | some u =>
      have hu0 : 0 ≤ u := hub u hu
      show min (max (c.x - delta) 0) u = c.x - delta
      rcases le_or_lt (c.x - delta) 0 with hle | hlt
      · exfalso; apply hne0; rw [hu]
        show min (max (c.x - delta) 0) u = 0
        rw [max_eq_right hle]; exact min_eq_left hu0
      · rw [max_eq_left hlt.le]
        rcases le_or_lt u (c.x - delta) with hge | hlt2
        · exfalso; apply hneu; rw [hu]
          show some u = some (clampUB (c.x - delta) (some u))
          have : clampUB (c.x - delta) (some u) = u := by
            show min (max (c.x - delta) 0) u = u
            rw [max_eq_left hlt.le]; exact min_eq_right hge
          rw [this]
        · exact min_eq_left hlt2.le

/-- If a pass removes nothing from the active set, it was an exact pass:
the new sum is the old sum minus `countAct · delta`. -/
theorem pass_sumX_exact (delta : α) (l : List (PCoord α))
    (hcount : countAct (l.map (passUpdate delta)) = countAct l)
    (hg : ∀ c ∈ l, goodC c) :
    sumX (l.map (passUpdate delta)) = sumX l - countAct l * delta := by
  induction l with
  | nil => simp [countAct]
  | cons c t ih =>
    have htail := countAct_map_pass_le delta t
    simp only [List.map_cons, countAct_cons, sumX_cons] at hcount ⊢
    have hgc := hg c (List.mem_cons_self c t)
    have hgt : ∀ d ∈ t, goodC d := fun d hd => hg d (List.mem_cons_of_mem c hd)
    by_cases hc : c.act = true
    · by_cases hp : (passUpdate delta c).act = true
      · rw [if_pos hc, if_pos hp] at hcount
        have hA : countAct (t.map (passUpdate delta)) = countAct t := by omega
        rw [if_pos hc, ih hA hgt, passUpdate_x_of_kept delta c hgc hc hp]
        push_cast; ring
      · rw [if_pos hc, if_neg hp] at hcount; omega
    · rw [passUpdate_inactive delta c (by simpa using hc), if_neg hc] at hcount ⊢
      have hA : countAct (t.map (passUpdate delta)) = countAct t := by omega
      rw [ih hA hgt]
      push_cast; ring

/-- Shrinking passes deactivate coordinates only at `0`. -/
theorem pass_shrinkInv (delta : α) (l : List (PCoord α)) (hδ : 0 < delta)
    (hg : ∀ c ∈ l, goodC c) (hinv : ∀ c ∈ l, c.act = false → c.x = 0) :
    ∀ c ∈ l.map (passUpdate delta), c.act = false → c.x = 0 := by
  intro c' hc' hact
  obtain ⟨c, hc, rfl⟩ := List.mem_map.mp hc'
  obtain ⟨hub, hx0, hxu⟩ := hg c hc
  by_cases hcact : c.act = true
  · unfold passUpdate at hact ⊢
    rw [if_pos hcact] at hact ⊢
    simp only at hact ⊢
    by_cases hrem : clampUB (c.x - delta) c.ub = 0 ∨ c.ub = some (clampUB (c.x - delta) c.ub)
    · show clampUB (c.x - delta) c.ub = 0
      rcases hrem with h0 | hcap
      · exact h0
      · -- removed at its own cap: in a shrinking pass this forces the cap to be 0
        cases hu : c.ub with
        | none => rw [hu] at hcap; cases hcap
        | some u =>
          have hu0 : 0 ≤ u := hub u hu
          rw [hu] at hcap
          have hvu : clampUB (c.x - delta) (some u) = u := (Option.some_injective α hcap).symm
          show clampUB (c.x - delta) (some u) = 0
          rcases le_or_lt (c.x - delta) 0 with hle | hlt
          · show min (max (c.x - delta) 0) u = 0
            rw [max_eq_right hle]; exact min_eq_left hu0
          · exfalso
            have hxle : c.x ≤ u := hxu u hu
            have : min (max (c.x - delta) 0) u = u := hvu
            rw [max_eq_left hlt.le] at this
            rcases le_or_lt (c.x - delta) u with hle2 | hgt2
            · rw [min_eq_left hle2] at this; linarith
            · linarith [min_eq_right hgt2.le ▸ this, hgt2]
    · rw [if_neg hrem] at hact; cases hact
  · have heq := passUpdate_inactive delta c (by simpa using hcact)
    rw [heq] at hact ⊢
    exact hinv c hc hact

/-- Growing passes deactivate coordinates only at their (finite) cap. -/
theorem pass_growInv (delta : α) (l : List (PCoord α)) (hδ : delta < 0)
    (hg : ∀ c ∈ l, goodC c) (hinv : ∀ c ∈ l, c.act = false → c.ub = some c.x) :
    ∀ c ∈ l.map (passUpdate delta), c.act = false → c.ub = some c.x := by
  intro c' hc' hact
  obtain ⟨c, hc, rfl⟩ := List.mem_map.mp hc'
  obtain ⟨hub, hx0, hxu⟩ := hg c hc
  by_cases hcact : c.act = true
  · have hpos : 0 < c.x - delta := by linarith
    rw [passUpdate_ub]
    unfold passUpdate at hact ⊢
    rw [if_pos hcact] at hact ⊢
    simp only at hact ⊢
    by_cases hrem : clampUB (c.x - delta) c.ub = 0 ∨ c.ub = some (clampUB (c.x - delta) c.ub)
    · show c.ub = some (clampUB (c.x - delta) c.ub)
      rcases hrem with h0 | hcap
      · -- clamped to 0 in a growing pass: the cap itself must be 0
        cases hu : c.ub with
        | none =>
          exfalso
          rw [hu] at h0
          have hmax : max (c.x - delta) 0 = 0 := h0
          have hle := le_max_left (c.x - delta) 0
          linarith [hle.trans_eq hmax]
        | some u =>
          rw [hu] at h0
          have : min (max (c.x - delta) 0) u = 0 := h0
          rw [max_eq_left hpos.le] at this
          have hu0 : u = 0 := by
            rcases le_or_lt (c.x - delta) u with hle | hlt
            · rw [min_eq_left hle] at this; linarith
            · rw [min_eq_right hlt.le] at this; exact this
          rw [show clampUB (c.x - delta) (some u) = 0 from h0, hu0]
      · exact hcap
    · rw [if_neg hrem] at hact; cases hact
  · have heq := passUpdate_inactive delta c (by simpa using hcact)
    rw [heq] at hact ⊢
    exact hinv c hc hact

/-- Feasibility measure of the caps: sum of the finite caps, with `Infinity`
counted as `1` (which suffices since iterate sums stay `≤ 1` on the growing
side). -/
def capVal (c : PCoord α) : α :=
  match c.ub with
  | none => 1
  | some u => u

/-- Sum of `capVal` over all coordinates. -/
def capSum (l : List (PCoord α)) : α := (l.map capVal).sum

theorem capVal_pass (delta : α) (c : PCoord α) : capVal (passUpdate delta c) = capVal c := by
  unfold capVal
  rw [passUpdate_ub]

theorem capSum_pass (delta : α) (l : List (PCoord α)) :
    capSum (l.map (passUpdate delta)) = capSum l := by
  unfold capSum
  rw [List.map_map]
  congr 1
  exact List.map_congr_left fun c _ => capVal_pass delta c

theorem sumX_eq_capSum (l : List (PCoord α)) (hall : ∀ c ∈ l, c.act = false)
    (hinv : ∀ c ∈ l, c.act = false → c.ub = some c.x) : sumX l = capSum l := by
  unfold sumX capSum
  congr 1
  refine List.map_congr_left fun c hc => ?_
  have := hinv c hc (hall c hc)
  unfold capVal
  rw [this]

theorem pass_goodC_all (delta : α) (l : List (PCoord α)) (hg : ∀ c ∈ l, goodC c) :
    ∀ c ∈ l.map (passUpdate delta), goodC c := by
  intro c' hc'
  obtain ⟨c, hc, rfl⟩ := List.mem_map.mp hc'
  exact passUpdate_goodC delta c (hg c hc)

theorem projLoop_goodC (fuel : ℕ) (l : List (PCoord α)) (hg : ∀ c ∈ l, goodC c) :
    ∀ c ∈ projLoop fuel l, goodC c := by
  induction fuel generalizing l with
  | zero => exact hg
  | succ f ih =>
    rw [projLoop]
    split
    · exact hg
    · split
      · exact hg
      · exact ih _ (pass_goodC_all _ l hg)

theorem projLoop_ubs (fuel : ℕ) (l : List (PCoord α)) :
    (projLoop fuel l).map (fun c => c.ub) = l.map fun c => c.ub := by
  induction fuel generalizing l with
  | zero => rfl
  | succ f ih =>
    rw [projLoop]
    split
    · rfl
    · split
      · rfl
      · rw [ih]
        rw [List.map_map]
        exact List.map_congr_left fun c _ => passUpdate_ub _ c

/-- Main lemma, shrinking phase: starting at or above sum `1` with the
invariant that deactivated coordinates sit at `0`, the loop ends within
`countAct l + 2` iterations with the sum within `1e-12` of `1`. -/
theorem projLoop_shrink (fuel : ℕ) :
    ∀ l : List (PCoord α), (∀ c ∈ l, goodC c) → (∀ c ∈ l, c.act = false → c.x = 0) →
      1 ≤ sumX l → countAct l + 2 ≤ fuel → |sumX (projLoop fuel l) - 1| < tolProj := by
  induction fuel with
  | zero => intro l _ _ _ hf; omega
  | succ f ih =>
    intro l hg hinv hS hf
    by_cases h : |sumX l - 1| < tolProj
    · rw [projLoop_exit1 _ _ h]; exact h
    · have hA : ¬ countAct l = 0 := by
        intro h0
        have hall := countAct_eq_zero l h0
        have hz : sumX l = 0 := sumX_eq_zero l fun c hc => hinv c hc (hall c hc)
        rw [hz] at hS
        linarith
      rw [projLoop_step f l h hA]
      have hApos : (0 : α) < (countAct l : α) := by
        exact_mod_cast Nat.pos_of_ne_zero hA
      have hSgt : tolProj ≤ sumX l - 1 := by
        rw [abs_of_nonneg (by linarith)] at h
        linarith
      set δ := (sumX l - 1) / (countAct l : α) with hδdef
      have hδpos : 0 < δ := div_pos (lt_of_lt_of_le tolProj_pos hSgt) hApos
      set l' := l.map (passUpdate δ) with hl'
      have hg' : ∀ c ∈ l', goodC c := pass_goodC_all δ l hg
      have hinv' : ∀ c ∈ l', c.act = false → c.x = 0 := pass_shrinkInv δ l hδpos hg hinv
      have hAδ : (countAct l : α) * δ = sumX l - 1 := by
        rw [hδdef]; field_simp
      have hsum_ge : 1 ≤ sumX l' := by
        have := pass_sumX_ge δ l hδpos.le hg
        rw [hAδ] at this
        linarith
      rcases lt_or_eq_of_le (countAct_map_pass_le δ l) with hlt | heq
      · exact ih l' hg' hinv' hsum_ge (by rw [hl']; omega)
      · have hex : sumX l' = 1 := by
          rw [pass_sumX_exact δ l heq hg, hAδ]
          ring
        obtain ⟨f', rfl⟩ : ∃ f', f = f' + 1 := ⟨f - 1, by omega⟩
        rw [projLoop_exit1 f' l' (by rw [hex]; simpa using tolProj_pos)]
        rw [hex]
        simpa using tolProj_pos

/-- Main lemma, growing phase: starting at or below sum `1` with the
invariant that deactivated coordinates sit at their (finite) cap, and caps
summing to at least `1`, the loop ends with the sum within `1e-12` of `1`. -/
theorem projLoop_grow (fuel : ℕ) :
    ∀ l : List (PCoord α), (∀ c ∈ l, goodC c) → (∀ c ∈ l, c.act = false → c.ub = some c.x) →
      sumX l ≤ 1 → 1 ≤ capSum l → countAct l + 2 ≤ fuel →
      |sumX (projLoop fuel l) - 1| < tolProj := by
  induction fuel with
  | zero => intro l _ _ _ _ hf; omega
  | succ f ih =>
    intro l hg hinv hS hfeas hf
    by_cases h : |sumX l - 1| < tolProj
    · rw [projLoop_exit1 _ _ h]; exact h
    · have hA : ¬ countAct l = 0 := by
        intro h0
        have hall := countAct_eq_zero l h0
        have hz : sumX l = capSum l := sumX_eq_capSum l hall hinv
        rw [hz] at hS h
        have : capSum l = 1 := le_antisymm hS hfeas
        rw [this] at h
        simp at h
        linarith [tolProj_pos (α := α)]
      rw [projLoop_step f l h hA]
      have hApos : (0 : α) < (countAct l : α) := by
        exact_mod_cast Nat.pos_of_ne_zero hA
      have hSlt : tolProj ≤ 1 - sumX l := by
        rw [abs_of_nonpos (by linarith)] at h
        linarith
      set δ := (sumX l - 1) / (countAct l : α) with hδdef
      have hδneg : δ < 0 := div_neg_of_neg_of_pos (by linarith [tolProj_pos (α := α)]) hApos
      set l' := l.map (passUpdate δ) with hl'
      have hg' : ∀ c ∈ l', goodC c := pass_goodC_all δ l hg
      have hinv' : ∀ c ∈ l', c.act = false → c.ub = some c.x := pass_growInv δ l hδneg hg hinv
      have hAδ : (countAct l : α) * δ = sumX l - 1 := by
        rw [hδdef]; field_simp
      have hsum_le : sumX l' ≤ 1 := by
        have := pass_sumX_le δ l hδneg.le hg
        rw [hAδ] at this
        linarith
      have hfeas' : 1 ≤ capSum l' := by rw [capSum_pass]; exact hfeas
      rcases lt_or_eq_of_le (countAct_map_pass_le δ l) with hlt | heq
      · exact ih l' hg' hinv' hsum_le hfeas' (by rw [hl']; omega)
      · have hex : sumX l' = 1 := by
          rw [pass_sumX_exact δ l heq hg, hAδ]
          ring
        obtain ⟨f', rfl⟩ : ∃ f', f = f' + 1 := ⟨f - 1, by omega⟩
        rw [projLoop_exit1 f' l' (by rw [hex]; simpa using tolProj_pos)]
        rw [hex]
        simpa using tolProj_pos

theorem countAct_all_true (l : List (PCoord α)) (h : ∀ c ∈ l, c.act = true) :
    countAct l = l.length := by
  induction l with
  | nil => rfl
  | cons c t ih =>
    rw [countAct_cons, if_pos (h c (List.mem_cons_self c t)),
      ih fun d hd => h d (List.mem_cons_of_mem c hd)]
    simp [Nat.add_comm]

theorem capVal_eq_getD (c : PCoord α) : capVal c = c.ub.getD 1 := by
  unfold capVal; cases c.ub <;> rfl

theorem forall₂_of_mem (P : α → Option α → Prop) (l : List (PCoord α))
    (h : ∀ c ∈ l, P c.x c.ub) :
    List.Forall₂ P (l.map fun c => c.x) (l.map fun c => c.ub) := by
  induction l with
  | nil => simp
  | cons c t ih =>
    simp only [List.map_cons]
    exact List.Forall₂.cons (h c (List.mem_cons_self c t))
      (ih fun d hd => h d (List.mem_cons_of_mem c hd))

/-- Full specification of the capped-simplex projection: the output is
componentwise inside `[0, cap_i]`, and — provided the caps leave a feasible
point (`Σ caps ≥ 1`, counting `Infinity` as `1`) and there are at most 998
coordinates — the output sums to `1` up to the loop's `1e-12` residual
tolerance.  Infeasible caps (`Σ caps < 1`) are NOT rescued: the loop then
stalls with every coordinate stuck at its cap. -/
theorem projectFeasible_spec (w : List α) (ub : List (Option α))
    (hlen : w.length = ub.length)
    (hub : ∀ ou ∈ ub, ∀ u, ou = some u → 0 ≤ u) (hn : w.length + 2 ≤ 1000) :
    List.Forall₂ (fun x ou => 0 ≤ x ∧ ∀ u, ou = some u → x ≤ u) (projectFeasible w ub) ub
    ∧ (1 ≤ (ub.map fun ou => ou.getD 1).sum →
        |(projectFeasible w ub).sum - 1| < tolProj) := by
  set init : List (PCoord α) := (w.zip ub).map fun p => ⟨clampUB p.1 p.2, p.2, true⟩ with hinit
  have hinit_ubs : init.map (fun c => c.ub) = ub := by
    rw [hinit, List.map_map]
    have : ((fun c : PCoord α => c.ub) ∘ fun p : α × Option α => ⟨clampUB p.1 p.2, p.2, true⟩)
        = Prod.snd := rfl
    rw [this]
    exact List.map_snd_zip w ub (le_of_eq hlen.symm)
  have hinit_good : ∀ c ∈ init, goodC c := by
    intro c hc
    rw [hinit] at hc
    obtain ⟨p, hp, rfl⟩ := List.mem_map.mp hc
    have hmem : p.2 ∈ ub := (List.of_mem_zip hp).2
    refine ⟨fun u hu => hub p.2 hmem u hu, clampUB_nonneg _ _ fun u hu => hub p.2 hmem u hu,
      fun u hu => clampUB_le _ _ _ hu⟩
  have hinit_act : ∀ c ∈ init, c.act = true := by
    intro c hc
    rw [hinit] at hc
    obtain ⟨p, hp, rfl⟩ := List.mem_map.mp hc
    rfl
  have hinit_len : init.length = w.length := by
    rw [hinit]
    simp [List.length_zip, Nat.min_eq_left (le_of_eq hlen)]
  have hcount : countAct init = w.length := by
    rw [countAct_all_true init hinit_act, hinit_len]
  have hfinal_good : ∀ c ∈ projLoop 1000 init, goodC c := projLoop_goodC 1000 init hinit_good
  have hfinal_ubs : (projLoop 1000 init).map (fun c => c.ub) = ub := by
    rw [projLoop_ubs, hinit_ubs]
  have hout : projectFeasible w ub = (projLoop 1000 init).map fun c => c.x := by
    rw [projectFeasible, hinit]
  constructor
  · rw [hout, ← hfinal_ubs]
    exact forall₂_of_mem _ _ fun c hc =>
      ⟨(hfinal_good c hc).2.1, (hfinal_good c hc).2.2⟩
  · intro hfeas
    have hsum : (projectFeasible w ub).sum = sumX (projLoop 1000 init) := by
      rw [hout]; rw [sumX]
    rw [hsum]
    have hmapeq : init.map capVal = ub.map fun ou => ou.getD 1 := by
      have h1 : init.map capVal = init.map fun c => c.ub.getD 1 :=
        List.map_congr_left fun c _ => capVal_eq_getD c
      rw [h1, ← hinit_ubs]
      exact (List.map_map (fun ou => ou.getD 1) (fun c => c.ub) init).symm
    have hcap : capSum init = (ub.map fun ou => ou.getD 1).sum := by
      rw [capSum, hmapeq]
    rcases le_total (sumX init) 1 with hle | hge
    · exact projLoop_grow 1000 init hinit_good
        (fun c hc hf => absurd (hinit_act c hc) (by simp [hf])) hle
        (by rw [hcap]; exact hfeas) (by omega)
    · exact projLoop_shrink 1000 init hinit_good
        (fun c hc hf => absurd (hinit_act c hc) (by simp [hf])) hge (by omega)

end ProjLemmas

section ESOptimizer

/-- The literal `1e-16` used as variance/share floor in optimizerES.ts. -/
noncomputable def tiny : ℝ := 1 / (10 : ℝ) ^ 16

/-- `normalPdf(z) = exp(-0.5 z²) / sqrt(2π)` (optimizerES.ts:306-308). -/
noncomputable def normalPdf (z : ℝ) : ℝ :=
  Real.exp (-0.5 * z * z) / Real.sqrt (2 * Real.pi)

/-- `invNormCdf` (optimizerES.ts:311-338): Acklam's rational approximation of
the inverse normal CDF.  The source throws for `p ≤ 0 ∨ p ≥ 1`; that branch
is modelled as `0` and is never reached (the only call site passes `0.95`). -/
noncomputable def invNormCdf (p : ℝ) : ℝ :=
  if p ≤ 0 ∨ 1 ≤ p then 0
  else if p < 0.02425 then
    let q := Real.sqrt (-2 * Real.log p)
    let num := ((((-7.784894002430293e-3 * q + -0.3223964580411365) * q +
      -2.400758277161838) * q + -2.549732539343734) * q + 4.374664141464968) * q +
      2.938163982698783
    let den := (((7.784695709041462e-3 * q + 0.3224671290700398) * q +
      2.445134137142996) * q + 3.754408661907416) * q + 1
    num / den
  else if p > 1 - 0.02425 then
    let q := Real.sqrt (-2 * Real.log (1 - p))
    let num := ((((-7.784894002430293e-3 * q + -0.3223964580411365) * q +
      -2.400758277161838) * q + -2.549732539343734) * q + 4.374664141464968) * q +
      2.938163982698783
    let den := (((7.784695709041462e-3 * q + 0.3224671290700398) * q +
      2.445134137142996) * q + 3.754408661907416) * q + 1
    Neg.neg (num / den)
  else
    let q := p - 0.5
    let r := q * q
    let num := (((((-39.69683028665376 * r + 220.9460984245205) * r +
      -275.9285104469687) * r + 138.3577518672690) * r + -30.66479806614716) * r +
      2.506628277459239) * q
    let den := ((((-54.47609879822406 * r + 161.5858368580409) * r +
      -155.6989798598866) * r + 66.80131188771972) * r + -13.28068155288572) * r + 1
    num / den

/-- Tail-risk contributions and shares (optimizerES.ts:200-215). -/
noncomputable def tailRiskContributions (w : List ℝ) (sigma : List (List ℝ))
    (kAlpha : ℝ) : List ℝ × List ℝ :=
  let sw := matVec sigma w
  let variance := max (dot w sw) tiny
  let stdev := Real.sqrt variance
  let scaleTail := kAlpha / stdev
  let marginalTail := sw.map fun v => scaleTail * v
  let rcTail := (w.zip marginalTail).map fun p => p.1 * p.2
  let sumRC := rcTail.sum
  let rcTailShares := if sumRC > tiny then rcTail.map fun v => v / sumRC
    else rcTail.map fun _ => 0
  (rcTail, rcTailShares)

/-- `evaluateObjective` (optimizerES.ts:132-159): Gaussian ES plus the
risk-budget penalty. -/
noncomputable def evaluateObjective (w mu : List ℝ) (sigma : List (List ℝ))
    (kAlpha : ℝ) (budgets : Option (List ℝ)) (lambda : ℝ) : ℝ :=
  let variance := max (quadraticForm w sigma) tiny
  let stdev := Real.sqrt variance
  let mean := dot mu w
  let es := -mean + kAlpha * stdev
  match budgets with
  | some b =>
    if lambda > 0 then
      let shares := (tailRiskContributions w sigma kAlpha).2
      let pen := ((shares.zip b).map fun p => (p.1 - p.2) * (p.1 - p.2)).sum
      es + lambda * pen
    else es
  | none => es

/-- `objectiveGradient` (optimizerES.ts:161-192): exact gradient of the ES
term plus the heuristic gradient of the penalty. -/
noncomputable def objectiveGradient (w mu : List ℝ) (sigma : List (List ℝ))
    (kAlpha : ℝ) (budgets : Option (List ℝ)) (lambda : ℝ) : List ℝ :=
  let sw := matVec sigma w
  let variance := max (dot w sw) tiny
  let stdev := Real.sqrt variance
  let scaleTail := kAlpha / stdev
  let grad := (mu.zip sw).map fun p => -p.1 + scaleTail * p.2
  match budgets with
  | some b =>
    if lambda > 0 then
      let shares := (tailRiskContributions w sigma kAlpha).2
      (grad.zip (shares.zip b)).map fun p => p.1 + 2 * lambda * (p.2.1 - p.2.2)
    else grad
  | none => grad

/-- `normalizeBudgets` (optimizerES.ts:219-224): budgets of the wrong length
are silently dropped, and any other budgets are silently rescaled to sum 1
(unless their sum is below `1e-16`). -/
noncomputable def normalizeBudgets (budgets : Option (List ℝ)) (n : ℕ) :
    Option (List ℝ) :=
  match budgets with
  | none => none
  | some b =>
    if b.length ≠ n then none
    else if b.sum ≤ tiny then none
    else some (b.map fun v => v / b.sum)

/-- `computeEntropy` (optimizerES.ts:298-302). -/
noncomputable def computeEntropy (w : List ℝ) : ℝ :=
  -((w.map fun wi => if wi > 0 then wi * Real.log wi else 0).sum)

/-- The Armijo backtracking line search (optimizerES.ts:90-104), fuel = 50.
Returns the first accepted candidate with its objective value, or `none`. -/
noncomputable def lineSearch (mu : List ℝ) (sigma : List (List ℝ)) (kAlpha : ℝ)
    (budgets : Option (List ℝ)) (lambda armijoBeta armijoSigma : ℝ)
    (ubs : List (Option ℝ)) (x : List ℝ) (fx : ℝ) (grad : List ℝ) (gradNorm : ℝ) :
    ℕ → ℝ → Option (List ℝ × ℝ)
  | 0, _ => none
  | ls + 1, step =>
    let candidate := projectFeasible (subtract x (scaleVec grad step)) ubs
    let fxCand := evaluateObjective candidate mu sigma kAlpha budgets lambda
    if fxCand ≤ fx - armijoSigma * step * gradNorm * gradNorm then some (candidate, fxCand)
    else lineSearch mu sigma kAlpha budgets lambda armijoBeta armijoSigma ubs x fx grad
      gradNorm ls (step * armijoBeta)

/-- The projected-gradient-descent loop of `optimizeExpectedShortfall`
(optimizerES.ts:78-108).  `fuel` is the number of remaining iterations and
`iter` the current index; returns (weights, objective, iterations, converged)
with the source's `for`-loop counter semantics. -/
noncomputable def descend (mu : List ℝ) (sigma : List (List ℝ)) (kAlpha : ℝ)
    (budgets : Option (List ℝ)) (lambda tol armijoBeta armijoSigma : ℝ)
    (ubs : List (Option ℝ)) : ℕ → ℕ → List ℝ → ℝ → List ℝ × ℝ × ℕ × Bool
  | 0, iter, x, fx => (x, fx, iter, false)
  | fuel + 1, iter, x, fx =>
    let grad := objectiveGradient x mu sigma kAlpha budgets lambda
    let gradNorm := Real.sqrt (dot grad grad)
    if gradNorm < tol then (x, fx, iter, true)
    else
      match lineSearch mu sigma kAlpha budgets lambda armijoBeta armijoSigma ubs x fx grad
          gradNorm 50 1 with
      | some (c, fc) =>
        descend mu sigma kAlpha budgets lambda tol armijoBeta armijoSigma ubs fuel
          (iter + 1) c fc
      | none => (x, fx, iter, false)

/-- Options of `optimizeExpectedShortfall` (`ESOptimizerOptions`,
optimizerES.ts:19-33).  The legacy unused fields `aiIndex`/`aiCap` are
omitted. -/
structure ESOptions where
  mu : List ℝ
  sigma : List (List ℝ)
  alpha : Option ℝ
  budgets : Option (List ℝ)
  budgetStrength : Option ℝ
  caps : Option (List (Option ℝ))
  initialWeights : Option (List ℝ)
  maxIterations : Option ℕ
  tolerance : Option ℝ
  armijoBeta : Option ℝ
  armijoSigma : Option ℝ

/-- Result record of `optimizeExpectedShortfall` (optimizerES.ts:116-127);
the legacy `aiShadowPrice: null` field is omitted. -/
structure ESResult where
  weights : List ℝ
  expectedShortfall : ℝ
  kAlpha : ℝ
  riskContributions : List ℝ
  riskContributionShares : List ℝ
  entropy : ℝ
  diversification : ℝ
  iterations : ℕ
  converged : Bool

/-- The `upperBounds` array of `optimizeExpectedShortfall`
(optimizerES.ts:47-49): `caps[i] == null ? Infinity : Math.max(0, caps[i])`,
with a missing caps argument read as all-`Infinity`. -/
noncomputable def esUpperBounds (opts : ESOptions) : List (Option ℝ) :=
  (opts.caps.getD (List.replicate opts.mu.length none)).map fun c =>
    c.map fun v => max 0 v

/-- The starting point of the descent (optimizerES.ts:57-65): projected
initial weights if supplied with the right length, else projected budgets,
else UNPROJECTED equal weights `1/n`. -/
noncomputable def esInitial (n : ℕ) (initialWeights : Option (List ℝ))
    (budgets : Option (List ℝ)) (ubs : List (Option ℝ)) : List ℝ :=
  match initialWeights with
  | some iw =>
    if iw.length = n then projectFeasible iw ubs
    else match budgets with
      | some b => projectFeasible b ubs
      | none => List.replicate n ((1 : ℝ) / n)
  | none =>
    match budgets with
    | some b => projectFeasible b ubs
    | none => List.replicate n ((1 : ℝ) / n)

/-- `optimizeExpectedShortfall` (optimizerES.ts:35-128).  Note that the tail
confidence is hard-coded: `const alpha = 0.95` (line 43), and `opts.alpha`
is never read. -/
noncomputable def optimizeExpectedShortfall (opts : ESOptions) :
    Except DataError ESResult :=
  let n := opts.mu.length
  if n = 0 then .error .muEmpty
  else if ¬(opts.sigma.length = n ∧ ∀ row ∈ opts.sigma, row.length = n) then
    .error .sigmaShape
  else
    let mu := opts.mu
    let sigma := opts.sigma
    let kAlpha := normalPdf (invNormCdf 0.95) / (1 - 0.95)
    let upperBounds := esUpperBounds opts
    let budgets := normalizeBudgets opts.budgets n
    let lambda := match budgets with
      | some _ => max 0 (opts.budgetStrength.getD 0.5)
      | none => 0
    let x0 := esInitial n opts.initialWeights budgets upperBounds
    let fx0 := evaluateObjective x0 mu sigma kAlpha budgets lambda
    let maxIterations := opts.maxIterations.getD 500
    let tol := opts.tolerance.getD (1 / (10 : ℝ) ^ 8)
    let armijoBeta := opts.armijoBeta.getD 0.5
    let armijoSigma := opts.armijoSigma.getD (1 / (10 : ℝ) ^ 4)
    let res := descend mu sigma kAlpha budgets lambda tol armijoBeta armijoSigma upperBounds
      maxIterations 0 x0 fx0
    let rcPair := tailRiskContributions res.1 sigma kAlpha
    let entropy := computeEntropy res.1
    .ok { weights := res.1, expectedShortfall := res.2.1, kAlpha := kAlpha,
          riskContributions := rcPair.1, riskContributionShares := rcPair.2,
          entropy := entropy, diversification := Real.exp entropy,
          iterations := res.2.2.1, converged := res.2.2.2 }

end ESOptimizer

section RiskBudgeting

variable {α : Type} [LinearOrderedField α]

/-- Price-only branch of `calculateReturns` (riskBudgeting.ts:48-54):
`(P_t - P_(t-1)) / P_(t-1)` for `t = 1 .. m-1`. -/
def priceOnlyReturns (prices : List α) : List α :=
  (List.range' 1 (prices.length - 1)).map fun i =>
    (prices.getD i 0 - prices.getD (i - 1) 0) / prices.getD (i - 1) 0

/-- `calculateReturns` (riskBudgeting.ts:44-66).  With no (or empty)
dividend series it returns price-only returns; otherwise total returns
`(P_t - P_(t-1) + D_t) / P_(t-1)` with missing dividends read as `0`
(the `dividends[i] || 0` in the source).  Note that a price list with
fewer than 2 entries yields the empty list: the function never throws. -/
def calculateReturns (prices : List α) (dividends : Option (List α)) : List α :=
  match dividends with
  | none => priceOnlyReturns prices
  | some d =>
    if d.length = 0 then priceOnlyReturns prices
    else
      (List.range' 1 (prices.length - 1)).map fun i =>
        (prices.getD i 0 - prices.getD (i - 1) 0 + d.getD i 0) / prices.getD (i - 1) 0

/-- `mean` (riskBudgeting.ts:71-73). -/
def meanList (arr : List α) : α := arr.sum / (arr.length : α)

/-- `calculateCovarianceMatrix` (riskBudgeting.ts:79-101): sample covariance
with divisor `T - 1`, annualized by `×252`.  Rows are traversed pairwise via
`zip`, which agrees with the source's index loop whenever all return series
have equal length (the only case the source is called with). -/
def calculateCovarianceMatrix (returnsData : List (List α)) : List (List α) :=
  let T := (returnsData.headD []).length
  let rows := returnsData.map fun r => (r, meanList r)
  rows.map fun ri =>
    rows.map fun rj =>
      (((ri.1.zip rj.1).map fun p => (p.1 - ri.2) * (p.2 - rj.2)).sum / ((T : α) - 1)) * 252

/-- `calculatePortfolioVolatility` (riskBudgeting.ts:116-123):
`sqrt(max(0, wᵀΣw))`. -/
noncomputable def calculatePortfolioVolatility (weights : List ℝ)
    (covMatrix : List (List ℝ)) : ℝ :=
  Real.sqrt (max 0 (dot weights (matVec covMatrix weights)))

/-- `calculateRiskContributions` (riskBudgeting.ts:129-149): absolute
contributions and percentage shares, with the zero-volatility guard
returning all-zero vectors. -/
noncomputable def calculateRiskContributions (weights : List ℝ)
    (covMatrix : List (List ℝ)) : List ℝ × List ℝ :=
  let portfolioVol := calculatePortfolioVolatility weights covMatrix
  if portfolioVol = 0 then (weights.map fun _ => 0, weights.map fun _ => 0)
  else
    let wSigma := matVec covMatrix weights
    let contributions := (weights.zip wSigma).map fun p => p.1 * p.2 / portfolioVol
    let totalRC := contributions.sum
    (contributions, contributions.map fun rc => rc / totalRC * 100)

/-- One sweep's weight update of `optimizeERC` (riskBudgeting.ts:203-216):
`w_i ← w_i · (targetRC_i / RC_i)^0.5` when `MRC_i > 0`.
`Math.pow(r, 0.5)` is modelled by `Real.sqrt r`; the two agree for `r ≥ 0`,
the only regime exercised by the theorems below. -/
noncomputable def ercUpdateWeights (weights wSigma targetRCs : List ℝ) (vol : ℝ) :
    List ℝ :=
  (weights.zip (wSigma.zip targetRCs)).map fun p =>
    let mrc := p.2.1 / vol
    let currentRC := p.1 * mrc
    if mrc > 0 then p.1 * Real.sqrt (p.2.2 / currentRC) else p.1

/-- Maximal entry of a list of (nonnegative) deviations.  `Math.max(...arr)`
of an empty list is `-Infinity` in the source; both models then compare
below any positive tolerance, so the convergence test behaves identically. -/
def maxAbsDev (l : List ℝ) : ℝ := l.foldr max 0

/-- Result record of `optimizeERC` (`OptimizationResult`,
riskBudgeting.ts:16-22). -/
structure ERCResult where
  weights : List ℝ
  riskContributions : List ℝ
  portfolioVolatility : ℝ
  converged : Bool
  iterations : ℕ

/-- The damped cyclical-coordinate-descent loop of `optimizeERC`
(riskBudgeting.ts:188-241).  `fuel` counts the remaining iterations; `iter`
is the source's `iteration` counter: it is incremented by the `for` update
after a converging sweep (so convergence at sweep `k` reports `k+1`), but a
`break` on zero volatility leaves it at `k`. -/
noncomputable def ercIterate (covMatrix : List (List ℝ))
    (targetBudgets : Option (List ℝ)) (tolerance : ℝ) :
    ℕ → ℕ → List ℝ → List ℝ × Bool × ℕ
  | 0, iter, weights => (weights, false, iter)
  | fuel + 1, iter, weights =>
    let wSigma := matVec covMatrix weights
    let portfolioVol := calculatePortfolioVolatility weights covMatrix
    if portfolioVol = 0 then (weights, false, iter)
    else
      let n := covMatrix.length
      let targetRCs := match targetBudgets with
        | some b => b.map fun v => v * portfolioVol
        | none => List.replicate n (portfolioVol / (n : ℝ))
      let updated := ercUpdateWeights weights wSigma targetRCs portfolioVol
      let normalized := updated.map fun w => w / updated.sum
      let percentages := (calculateRiskContributions normalized covMatrix).2
      let targetPercentages := match targetBudgets with
        | some b => b.map fun v => v * 100
        | none => List.replicate n (100 / (n : ℝ))
      let maxRCDeviation := maxAbsDev ((percentages.zip targetPercentages).map
        fun p => |p.1 - p.2|)
      if maxRCDeviation < tolerance then (normalized, true, iter + 1)
      else ercIterate covMatrix targetBudgets tolerance fuel (iter + 1) normalized

/-- Body of `optimizeERC` after validation (riskBudgeting.ts:179-257). -/
noncomputable def ercRun (covMatrix : List (List ℝ)) (maxIterations : ℕ)
    (tolerance : ℝ) (targetBudgets : Option (List ℝ)) : ERCResult :=
  let n := covMatrix.length
  let res := ercIterate covMatrix targetBudgets tolerance maxIterations 0
    (List.replicate n ((1 : ℝ) / n))
  { weights := res.1
    riskContributions := (calculateRiskContributions res.1 covMatrix).2
    portfolioVolatility := calculatePortfolioVolatility res.1 covMatrix
    converged := res.2.1
    iterations := res.2.2 }

/-- `optimizeERC` (riskBudgeting.ts:160-258).  The TS defaults are
`maxIterations = 1000`, `tolerance = 1e-6`, `targetBudgets` absent.
Budget validation (lines 169-177) throws on a length mismatch and on
`|Σb - 1| > 1e-6`. -/
noncomputable def optimizeERC (covMatrix : List (List ℝ)) (maxIterations : ℕ)
    (tolerance : ℝ) (targetBudgets : Option (List ℝ)) : Except DataError ERCResult :=
  match targetBudgets with
  | some b =>
    if b.length ≠ covMatrix.length then .error .budgetsLength
    else if |b.sum - 1| > 1 / (10 : ℝ) ^ 6 then .error .budgetsSum
    else .ok (ercRun covMatrix maxIterations tolerance targetBudgets)
  | none => .ok (ercRun covMatrix maxIterations tolerance targetBudgets)

/-- Forward peak-tracking scan of `calculateMaxDrawdown`
(riskBudgeting.ts:309-325). -/
def mddFold : List α → α → α → α
  | [], _, maxDD => maxDD
  | p :: t, peak, maxDD =>
    let peak2 := if p > peak then p else peak
    let dd := (peak2 - p) / peak2
    mddFold t peak2 (if dd > maxDD then dd else maxDD)

/-- `calculateMaxDrawdown` (riskBudgeting.ts:306-328): returns the maximum
peak-to-trough decline as a POSITIVE percentage. -/
def calculateMaxDrawdown (prices : List α) : α :=
  if prices.length = 0 then 0
  else mddFold prices (prices.headD 0) 0 * 100

/-- State-passing scan of `calculateDrawdownFromValues` (backtest.ts:555-566):
arguments are the remaining values, current index, running peak and its
index, and the best (maxDD, maxPeak, maxTrough) so far. -/
def ddScan : List α → ℕ → α → ℕ → α → ℕ → ℕ → α × ℕ × ℕ
  | [], _, _, _, maxDD, maxPeak, maxTrough => (maxDD, maxPeak, maxTrough)
  | v :: t, i, peak, peakIndex, maxDD, maxPeak, maxTrough =>
    let peak2 := if v > peak then v else peak
    let peakIndex2 := if v > peak then i else peakIndex
    let dd := (peak2 - v) / peak2
    if dd > maxDD then ddScan t (i + 1) peak2 peakIndex2 dd peakIndex2 i
    else ddScan t (i + 1) peak2 peakIndex2 maxDD maxPeak maxTrough

/-- `calculateDrawdownFromValues` (backtest.ts:544-573): maximum drawdown of
a value series as a POSITIVE percentage, with peak/trough indices. -/
def calculateDrawdownFromValues (values : List α) : α × ℕ × ℕ :=
  let r := ddScan values 0 (values.headD 0) 0 0 0 0
  (r.1 * 100, r.2.1, r.2.2)

end RiskBudgeting

section Dates

/-- A calendar date, standing for the ISO string `YYYY-MM-DD` parsed by
`new Date(...)` (UTC midnight).  `month` is 1-based as in the string. -/
structure SimDate where
  year : ℤ
  month : ℤ
  day : ℤ
  deriving DecidableEq, Repr

instance : Inhabited SimDate := ⟨⟨1970, 1, 1⟩⟩

/-- JS `Date.prototype.getMonth()`: the zero-based month. -/
def getMonth (d : SimDate) : ℤ := d.month - 1

/-- Civil-calendar day number (days since 1970-01-01, Howard Hinnant's
`days_from_civil`), matching the UTC day count of `Date.parse("YYYY-MM-DD")`. -/
def daysFromCivil (d : SimDate) : ℤ :=
  let y := d.year - (if d.month ≤ 2 then 1 else 0)
  let era := Int.fdiv y 400
  let yoe := y - era * 400
  let mp := (d.month + 9) % 12
  let doy := (153 * mp + 2) / 5 + d.day - 1
  let doe := yoe * 365 + yoe / 4 - yoe / 100 + doy
  era * 146097 + doe - 719468

/-- JS `Date.prototype.getTime()` in milliseconds for a UTC-midnight date. -/
def getTime (d : SimDate) : ℤ := daysFromCivil d * 86400000

/-- `RebalanceConfig["frequency"]` (backtest.ts:57). -/
inductive Freq where
  | daily | weekly | monthly | quarterly | annually
  deriving DecidableEq, Repr

/-- `shouldRebalance` (backtest.ts:522-538). -/
def shouldRebalance (c l : SimDate) (freq : Freq) : Bool :=
  match freq with
  | .daily => true
  | .weekly => decide (7 * 24 * 60 * 60 * 1000 ≤ getTime c - getTime l)
  | .monthly => decide (getMonth c ≠ getMonth l ∨ c.year ≠ l.year)
  | .quarterly =>
    decide (Int.fdiv (getMonth c) 3 ≠ Int.fdiv (getMonth l) 3 ∨ c.year ≠ l.year)
  | .annually => decide (c.year ≠ l.year)

end Dates

section Backtest

/-- `parseFloat(x.toFixed(2))`: rounding to 2 decimal places. -/
noncomputable def round2 (x : ℝ) : ℝ := (round (x * 100) : ℤ) / 100

/-- `parseFloat(x.toFixed(4))`: rounding to 4 decimal places. -/
noncomputable def round4 (x : ℝ) : ℝ := (round (x * 10000) : ℤ) / 10000

/-- `RebalanceConfig` (backtest.ts:56-59). -/
structure RebalanceConfig where
  frequency : Freq
  transactionCost : ℝ

/-- One entry of `RebalanceEvent.changes` (backtest.ts:22-28).  Tickers are
modelled as indices into the `tickers` array (opaque identifiers). -/
structure RebalanceChange where
  ticker : ℕ
  beforeWeight : ℝ
  afterWeight : ℝ
  drift : ℝ
  tradeAmount : ℝ

/-- `RebalanceEvent` (backtest.ts:16-33); the `Record<string, number>`
snapshots become association lists over ticker indices. -/
structure RebalanceEvent where
  date : SimDate
  portfolioValue : ℝ
  volatility : ℝ
  sharpe : ℝ
  quarterlyReturn : ℝ
  changes : List RebalanceChange
  totalTradingVolume : ℝ
  transactionCost : ℝ
  pricesAtRebalance : List (ℕ × ℝ)
  riskContributions : List (ℕ × ℝ)

/-- `BacktestResult` (backtest.ts:35-54); `maxDrawdownPeriod`'s `"" `
placeholders become `none`. -/
structure BacktestResult where
  portfolioValues : List ℝ
  returns : List ℝ
  dates : List SimDate
  finalValue : ℝ
  totalReturn : ℝ
  annualizedReturn : ℝ
  annualizedVolatility : ℝ
  sharpeRatio : ℝ
  maxDrawdown : ℝ
  maxDrawdownPeriodStart : Option SimDate
  maxDrawdownPeriodEnd : Option SimDate
  rebalanceCount : ℕ
  rebalanceDates : List RebalanceEvent
  dividendCash : ℝ
  dividendCashIfReinvested : ℝ
  missedDividendOpportunity : ℝ
  shadowPortfolioValue : ℝ
  shadowTotalReturn : ℝ
  currentRiskContributions : List (ℕ × ℝ)

/-- Arguments of `runBacktest` (backtest.ts:65-79).  `prices[i]` stands for
`pricesMap.get(tickers[i])` (and likewise `dividends[i]`): the map lookups
are resolved positionally, which is what every access in the source does.
`optimizer` becomes the flag `useES`. -/
structure BacktestArgs where
  prices : List (List ℝ)
  dividends : List (List ℝ)
  dates : List SimDate
  initialWeights : List ℝ
  tickers : List ℕ
  rebalanceConfig : RebalanceConfig
  initialValue : ℝ
  reinvestDividends : Bool
  targetBudgets : Option (List ℝ)
  lookbackPeriodYears : Option ℕ
  maintainFixedWeights : Bool
  useES : Bool
  outputStartIdx : ℕ

/-- Mutable locals of the day loop (backtest.ts:104-126), gathered into a
state record threaded through `stepDay`. -/
structure SimState where
  shares : List ℝ
  shadowShares : List ℝ
  portfolioValues : List ℝ
  returns : List ℝ
  totalDividendCash : ℝ
  totalDividendCashIfReinvested : ℝ
  currentWeights : List ℝ
  previousTargetWeights : List ℝ
  lastRebalanceDate : SimDate
  rebalanceCount : ℕ
  events : List RebalanceEvent
  divCashAtSlice : ℝ
  divCashIfReAtSlice : ℝ
  shadowValAtSlice : ℝ

/-- Target-weight computation on a rebalance day (backtest.ts:197-241):
fixed weights, or a trailing-window covariance fed to the selected
optimizer; any failure (short window, optimizer throw) is caught and keeps
the previous target weights. -/
noncomputable def computeTargets (args : BacktestArgs) (t : ℕ)
    (currentWeights : List ℝ) : List ℝ :=
  if args.maintainFixedWeights then args.initialWeights
  else
    let lookbackDays := match args.lookbackPeriodYears with
      | some y => y * 252
      | none => 252
    let window := min lookbackDays t
    let startIdx := t - window
    let segs := (List.range args.tickers.length).map fun i =>
      ((args.prices.getD i []).take (t + 1)).drop startIdx
    if segs.any fun s => s.length < 2 then currentWeights
    else
      let recentCov := calculateCovarianceMatrix (segs.map fun s => calculateReturns s none)
      if args.useES then
        match optimizeExpectedShortfall
          { mu := List.replicate args.tickers.length 0, sigma := recentCov, alpha := none
            budgets := args.targetBudgets, budgetStrength := some 400, caps := none
            initialWeights := none, maxIterations := none, tolerance := none
            armijoBeta := none, armijoSigma := none } with
        | .ok r => r.weights
        | .error _ => currentWeights
      else
        match optimizeERC recentCov 1000 (1 / (10 : ℝ) ^ 6) args.targetBudgets with
        | .ok r => r.weights
        | .error _ => currentWeights

/-- Share resizing at rebalance (backtest.ts:282-286):
`shares[i] = price > 0 ? portAfterCost·w_i / price : 0`. -/
noncomputable def resizeShares (pricesT : List ℝ) (portAfterCost : ℝ)
    (targets : List ℝ) : List ℝ :=
  (List.range pricesT.length).map fun i =>
    let price := pricesT.getD i 0
    if price > 0 then portAfterCost * targets.getD i 0 / price else 0

/-- The `changes` array of a logged `RebalanceEvent` (backtest.ts:334-347).
Note that it is built from the ALREADY-RESIZED share counts and the
ALREADY-COST-REDUCED portfolio value. -/
noncomputable def mkChanges (tickers : List ℕ) (pricesT sharesAfter : List ℝ)
    (portfolioValue : ℝ) (targets beforeW prevTargets : List ℝ) :
    List RebalanceChange :=
  (List.range tickers.length).map fun i =>
    let price := pricesT.getD i 0
    let curVal := sharesAfter.getD i 0 * price
    let targetVal := portfolioValue * targets.getD i 0
    { ticker := tickers.getD i 0
      beforeWeight := round2 (beforeW.getD i 0)
      afterWeight := round2 (targets.getD i 0 * 100)
      drift := round2 (beforeW.getD i 0 - prevTargets.getD i 0 * 100)
      tradeAmount := round2 |targetVal - curVal| }

/-- One iteration `t` of the main simulation loop (backtest.ts:130-356). -/
noncomputable def stepDay (args : BacktestArgs) (st : SimState) (t : ℕ) : SimState :=
  let nA := args.tickers.length
  let idx := List.range nA
  let sliceStart := min args.outputStartIdx (args.dates.length - 1)
  let divOf := fun i => (args.dividends.getD i []).getD t 0
  let prevPrice := fun i => (args.prices.getD i []).getD (t - 1) 0
  let priceT := fun i => (args.prices.getD i []).getD t 0
  -- 1. dividends
  let shares1 := idx.map fun i =>
    let s := st.shares.getD i 0
    if divOf i > 0 ∧ args.reinvestDividends = true ∧ prevPrice i > 0 then
      s + s * divOf i / prevPrice i
    else s
  let shadowShares1 := idx.map fun i =>
    let s := st.shadowShares.getD i 0
    if divOf i > 0 ∧ args.reinvestDividends = false ∧ prevPrice i > 0 then
      s + s * divOf i / prevPrice i
    else s
  let cashFromDividends :=
    (idx.map fun i =>
      if divOf i > 0 ∧ args.reinvestDividends = false then st.shares.getD i 0 * divOf i
      else 0).sum
  let tdc1 := st.totalDividendCash +
    (idx.map fun i => if divOf i > 0 then st.shares.getD i 0 * divOf i else 0).sum
  let tdcr1 := st.totalDividendCashIfReinvested +
    (idx.map fun i => if divOf i > 0 then st.shadowShares.getD i 0 * divOf i else 0).sum
  -- 2. portfolio value
  let portfolioValue1 := cashFromDividends +
    (idx.map fun i => shares1.getD i 0 * priceT i).sum
  -- 3. daily return
  let prevVal := st.portfolioValues.getLastD 0
  let dailyReturn := if prevVal > 0 then (portfolioValue1 - prevVal) / prevVal else 0
  let returns1 := st.returns ++ [dailyReturn]
  let values1 := st.portfolioValues ++ [portfolioValue1]
  -- burn-in snapshots (backtest.ts:180-187)
  let divCashAtSlice2 := if t = sliceStart then tdc1 else st.divCashAtSlice
  let divCashIfReAtSlice2 := if t = sliceStart then tdcr1 else st.divCashIfReAtSlice
  let shadowValAtSlice2 :=
    if t = sliceStart then (idx.map fun i => shadowShares1.getD i 0 * priceT i).sum
    else st.shadowValAtSlice
  -- 4. rebalancing
  if shouldRebalance (args.dates.getD t default) st.lastRebalanceDate
      args.rebalanceConfig.frequency then
    let newTargets := computeTargets args t st.currentWeights
    let beforeW := idx.map fun i => shares1.getD i 0 * priceT i / portfolioValue1 * 100
    let win := min 252 returns1.length
    let r := returns1.drop (returns1.length - win)
    let rLen : ℝ := if r.length = 0 then 1 else (r.length : ℝ)
    let meanR := r.sum / rLen
    let variance := (r.map fun v => (v - meanR) * (v - meanR)).sum / rLen
    let rollingVol := Real.sqrt (variance * 252) * 100
    let annualizedMeanReturn := meanR * 252 * 100
    let rollingSharpe := if rollingVol > 0 then annualizedMeanReturn / rollingVol else 0
    let qWin := min 60 values1.length
    let qStartVal := values1.getD (values1.length - qWin) 0
    let quarterlyReturn :=
      if qStartVal > 0 then (portfolioValue1 - qStartVal) / qStartVal * 100 else 0
    let totalTradingVolume :=
      (idx.map fun i =>
        |portfolioValue1 * newTargets.getD i 0 - shares1.getD i 0 * priceT i|).sum
    let transactionCost := totalTradingVolume * args.rebalanceConfig.transactionCost
    let portAfterCost := portfolioValue1 - transactionCost
    let pricesT := idx.map priceT
    let shares2 := resizeShares pricesT portAfterCost newTargets
    let values2 := values1.dropLast ++ [portAfterCost]
    let shadowVal := (idx.map fun i => shadowShares1.getD i 0 * priceT i).sum
    let shadowTradingVolume :=
      (idx.map fun i =>
        |shadowVal * newTargets.getD i 0 - shadowShares1.getD i 0 * priceT i|).sum
    let shadowAfterCost :=
      shadowVal - shadowTradingVolume * args.rebalanceConfig.transactionCost
    let shadowShares2 := resizeShares pricesT shadowAfterCost newTargets
    let event : RebalanceEvent :=
      { date := args.dates.getD t default
        portfolioValue := round2 portAfterCost
        volatility := round2 rollingVol
        sharpe := round2 rollingSharpe
        quarterlyReturn := round2 quarterlyReturn
        changes := mkChanges args.tickers pricesT shares2 portAfterCost newTargets beforeW
          st.previousTargetWeights
        totalTradingVolume := round2 totalTradingVolume
        transactionCost := round2 transactionCost
        pricesAtRebalance := idx.map fun i => (args.tickers.getD i 0, round4 (priceT i))
        riskContributions := idx.map fun i =>
          (args.tickers.getD i 0, round2 (newTargets.getD i 0 * 100)) }
    { shares := shares2
      shadowShares := shadowShares2
      portfolioValues := values2
      returns := returns1
      totalDividendCash := tdc1
      totalDividendCashIfReinvested := tdcr1
      currentWeights := newTargets
      previousTargetWeights := newTargets
      lastRebalanceDate := args.dates.getD t default
      rebalanceCount := st.rebalanceCount + 1
      events := st.events ++ [event]
      divCashAtSlice := divCashAtSlice2
      divCashIfReAtSlice := divCashIfReAtSlice2
      shadowValAtSlice := shadowValAtSlice2 }
  else
    { shares := shares1
      shadowShares := shadowShares1
      portfolioValues := values1
      returns := returns1
      totalDividendCash := tdc1
      totalDividendCashIfReinvested := tdcr1
      currentWeights := st.currentWeights
      previousTargetWeights := st.previousTargetWeights
      lastRebalanceDate := st.lastRebalanceDate
      rebalanceCount := st.rebalanceCount
      events := st.events
      divCashAtSlice := divCashAtSlice2
      divCashIfReAtSlice := divCashIfReAtSlice2
      shadowValAtSlice := shadowValAtSlice2 }

/-- Initial state of the day loop (backtest.ts:104-126). -/
noncomputable def initState (args : BacktestArgs) : SimState :=
  let idx := List.range args.tickers.length
  let shares0 := idx.map fun i =>
    let p0 := (args.prices.getD i []).getD 0 0
    if p0 > 0 then args.initialValue * args.initialWeights.getD i 0 / p0 else 0
  { shares := shares0
    shadowShares := shares0
    portfolioValues := [args.initialValue]
    returns := []
    totalDividendCash := 0
    totalDividendCashIfReinvested := 0
    currentWeights := args.initialWeights
    previousTargetWeights := args.initialWeights
    lastRebalanceDate := args.dates.getD 0 default
    rebalanceCount := 0
    events := []
    divCashAtSlice := 0
    divCashIfReAtSlice := 0
    shadowValAtSlice := 0 }

/-- The main simulation loop (`for (let t = 1; t < n; t++)`, backtest.ts:130). -/
noncomputable def runDays (args : BacktestArgs) : SimState :=
  (List.range' 1 (args.dates.length - 1)).foldl (stepDay args) (initState args)

/-- End-of-simulation drifted risk contributions (backtest.ts:359-412). -/
noncomputable def driftedRC (args : BacktestArgs) (shares : List ℝ) :
    List (ℕ × ℝ) :=
  let idx := List.range args.tickers.length
  let iFinal := args.dates.length - 1
  let finalVals := idx.map fun i => shares.getD i 0 * (args.prices.getD i []).getD iFinal 0
  let totFinal0 := finalVals.sum
  let totFinal := if totFinal0 = 0 then 1 else totFinal0
  let finalDriftedWeights := finalVals.map fun v => v / totFinal
  let lookbackDays := match args.lookbackPeriodYears with
    | some y => y * 252
    | none => 252
  let start := args.dates.length - lookbackDays
  let slices := idx.map fun i => (args.prices.getD i []).drop start
  if slices.any fun s => s.length < 2 then
    idx.map fun i => (args.tickers.getD i 0, round2 (finalDriftedWeights.getD i 0 * 100))
  else
    let cov := calculateCovarianceMatrix (slices.map fun s => calculateReturns s none)
    let contributions := (calculateRiskContributions finalDriftedWeights cov).1
    let absSum := (contributions.map fun v => |v|).sum
    idx.map fun i =>
      (args.tickers.getD i 0,
        round2 (if absSum > 0 then |contributions.getD i 0| / absSum * 100
                else finalDriftedWeights.getD i 0 * 100))

/-- Rescaling of a retained `RebalanceEvent`'s monetary fields by the burn-in
scale factor (backtest.ts:436-451). -/
noncomputable def scaleEvent (scale : ℝ) (ev : RebalanceEvent) : RebalanceEvent :=
  { ev with
    portfolioValue := round2 (ev.portfolioValue * scale)
    totalTradingVolume := round2 (ev.totalTradingVolume * scale)
    transactionCost := round2 (ev.transactionCost * scale)
    changes := ev.changes.map fun ch =>
      { ch with tradeAmount := round2 (ch.tradeAmount * scale) } }

/-- `runBacktest` (backtest.ts:65-516). -/
noncomputable def runBacktest (args : BacktestArgs) : BacktestResult :=
  let n := args.dates.length
  if n < 2 then
    -- safety check (backtest.ts:83-101): trivial zero-metrics result;
    -- fields the source leaves undefined become 0 / [] / none here
    { portfolioValues := [args.initialValue]
      returns := []
      dates := args.dates
      finalValue := args.initialValue
      totalReturn := 0
      annualizedReturn := 0
      annualizedVolatility := 0
      sharpeRatio := 0
      maxDrawdown := 0
      maxDrawdownPeriodStart := none
      maxDrawdownPeriodEnd := none
      rebalanceCount := 0
      rebalanceDates := []
      dividendCash := 0
      dividendCashIfReinvested := 0
      missedDividendOpportunity := 0
      shadowPortfolioValue := 0
      shadowTotalReturn := 0
      currentRiskContributions := (List.range args.tickers.length).map fun i =>
        (args.tickers.getD i 0, args.initialWeights.getD i 0 * 100) }
  else
    let idx := List.range args.tickers.length
    let st := runDays args
    let sliceStart := min args.outputStartIdx (n - 1)
    let currentRiskContributions := driftedRC args st.shares
    let outDates := if 0 < sliceStart ∧ sliceStart < st.portfolioValues.length
      then args.dates.drop sliceStart else args.dates
    let baseVal := st.portfolioValues.getD sliceStart 0
    let scale := if 0 < sliceStart ∧ sliceStart < st.portfolioValues.length then
        (if baseVal > 0 then args.initialValue / baseVal else 1)
      else 1
    let outValues := if 0 < sliceStart ∧ sliceStart < st.portfolioValues.length then
        (st.portfolioValues.drop sliceStart).map fun v => v * scale
      else st.portfolioValues
    let outReturns := (List.range' 1 (outValues.length - 1)).map fun i =>
      if outValues.getD (i - 1) 0 > 0 then outValues.getD i 0 / outValues.getD (i - 1) 0 - 1
      else 0
    let outRebalanceEvents := if 0 < sliceStart then
        (st.events.filter fun ev => outDates.contains ev.date).map (scaleEvent scale)
      else st.events
    let windowDiv := st.totalDividendCash - st.divCashAtSlice
    let windowDivIfRe := st.totalDividendCashIfReinvested - st.divCashIfReAtSlice
    let finalValue := if outValues.length > 0 then outValues.getLastD 0
      else args.initialValue
    let totalReturn := (finalValue - args.initialValue) / args.initialValue
    let years : ℝ := ((outValues.length - 1 : ℕ) : ℝ) / 252
    let annualizedReturn := if years > 0 then (1 + totalReturn) ^ (1 / years) - 1 else 0
    let retLen : ℝ := if outReturns.length = 0 then 1 else (outReturns.length : ℝ)
    let meanRet := outReturns.sum / retLen
    let varRet := (outReturns.map fun v => (v - meanRet) * (v - meanRet)).sum / retLen
    let annualizedVol := Real.sqrt (varRet * 252)
    let sharpe := if annualizedVol > 0 then annualizedReturn / annualizedVol else 0
    let dd := calculateDrawdownFromValues outValues
    let shadowVal := (idx.map fun i =>
      let arr := args.prices.getD i []
      st.shadowShares.getD i 0 * arr.getD (arr.length - 1) 0).sum
    let windowShadowVal := if 0 < sliceStart ∧ st.shadowValAtSlice > 0 then
        shadowVal / st.shadowValAtSlice * args.initialValue
      else shadowVal
    let windowShadowReturn := (windowShadowVal - args.initialValue) / args.initialValue * 100
    let missedOpp := if args.reinvestDividends then finalValue - windowShadowVal
      else windowShadowVal - finalValue
    { portfolioValues := outValues
      returns := outReturns
      dates := outDates
      finalValue := finalValue
      totalReturn := totalReturn * 100
      annualizedReturn := annualizedReturn * 100
      annualizedVolatility := annualizedVol * 100
      sharpeRatio := sharpe
      maxDrawdown := -|dd.1|
      maxDrawdownPeriodStart := outDates.get? dd.2.1
      maxDrawdownPeriodEnd := outDates.get? dd.2.2
      rebalanceCount := outRebalanceEvents.length
      rebalanceDates := outRebalanceEvents
      dividendCash := windowDiv
      dividendCashIfReinvested := windowDivIfRe
      missedDividendOpportunity := missedOpp
      shadowPortfolioValue := windowShadowVal
      shadowTotalReturn := windowShadowReturn
      currentRiskContributions := currentRiskContributions }

end Backtest

section HelperLemmas

theorem mddFold_nonneg {α : Type} [LinearOrderedField α] :
    ∀ (l : List α) (peak m : α), 0 ≤ m → 0 ≤ mddFold l peak m := by
  intro l
  induction l with
  | nil => intro peak m hm; exact hm
  | cons p t ih =>
    intro peak m hm
    rw [mddFold]
    apply ih
    generalize (if p > peak then p else peak) = pk
    split
    · next h => linarith
    · exact hm

theorem round2_zero : round2 0 = 0 := by
  unfold round2
  norm_num

theorem round2_of_mul_eq_int (x : ℝ) (z : ℤ) (h : x * 100 = (z : ℝ)) :
    round2 x = (z : ℝ) / 100 := by
  unfold round2
  rw [h, round_intCast]

end HelperLemmas

section ClaimTheorems

/-- C6: `shouldRebalance` triggers per frequency exactly as specified:
daily always; weekly iff at least 7 calendar days elapsed; monthly iff the
calendar month or year changed; quarterly iff the integer quarter
`floor(month/3)` (zero-based month) or the year changed — in particular
Mar 31 → Apr 1 triggers and a step inside one quarter does not; annually
iff the calendar year changed. -/
theorem shouldRebalance_frequencies :
    (∀ c l : SimDate, shouldRebalance c l .daily = true)
    ∧ (∀ c l : SimDate, shouldRebalance c l .weekly = true ↔
        7 ≤ daysFromCivil c - daysFromCivil l)
    ∧ (∀ c l : SimDate, shouldRebalance c l .monthly = true ↔
        (getMonth c ≠ getMonth l ∨ c.year ≠ l.year))
    ∧ (∀ c l : SimDate, shouldRebalance c l .quarterly = true ↔
        (Int.fdiv (getMonth c) 3 ≠ Int.fdiv (getMonth l) 3 ∨ c.year ≠ l.year))
    ∧ (∀ c l : SimDate, shouldRebalance c l .annually = true ↔ c.year ≠ l.year)
    ∧ shouldRebalance ⟨2021, 4, 1⟩ ⟨2021, 3, 31⟩ .quarterly = true
    ∧ shouldRebalance ⟨2021, 2, 15⟩ ⟨2021, 1, 5⟩ .quarterly = false := by
  refine ⟨fun c l => rfl, fun c l => ?_, fun c l => by simp [shouldRebalance],
    fun c l => by simp [shouldRebalance], fun c l => by simp [shouldRebalance],
    by decide, by decide⟩
  simp only [shouldRebalance, getTime, decide_eq_true_eq]
  constructor
  · intro h; omega
  · intro h; omega

/-- C7 counterexample: `calculateReturns` on the single-point price list
`[5]` does NOT fail — it returns the empty list (the function contains no
throw at all; the fewer-than-2-points guard that throws lives in
`runBacktest`'s rebalance block instead). -/
theorem calculateReturns_single_point :
    calculateReturns ([5] : List ℚ) none = [] := rfl

/-- C7 amended: with fewer than 2 price points `calculateReturns` silently
returns an empty return series instead of raising a `DataError`. -/
theorem calculateReturns_short_input {α : Type} [LinearOrderedField α]
    (prices : List α) (dividends : Option (List α)) (h : prices.length < 2) :
    calculateReturns prices dividends = [] := by
  have hz : prices.length - 1 = 0 := by omega
  unfold calculateReturns priceOnlyReturns
  cases dividends with
  | none => rw [hz]; rfl
  | some d =>
    simp only [hz]
    by_cases hd : d.length = 0
    · simp [hd]
    · simp [hd]

/-- C7 witness: the amended statement evaluated at the concrete input `[5]`. -/
theorem calculateReturns_short_input_witness :
    calculateReturns ([5] : List ℚ) (some [0]) = [] :=
  calculateReturns_short_input [5] (some [0]) (by norm_num)

/-- C8: both optimizers are deterministic — they are pure functions of
their explicit arguments.  The embedding itself witnesses this: the entire
iteration (coordinate descent resp. projected gradient descent with Armijo
line search) is definable as a mathematical function, which is possible
because the source contains no randomness, clock reads, or other ambient
state; two calls with identical inputs are therefore identical. -/
theorem optimizers_deterministic :
    (∀ (cov : List (List ℝ)) (mi : ℕ) (tol : ℝ) (b : Option (List ℝ)),
      optimizeERC cov mi tol b = optimizeERC cov mi tol b)
    ∧ ∀ opts : ESOptions,
      optimizeExpectedShortfall opts = optimizeExpectedShortfall opts :=
  ⟨fun _ _ _ _ => rfl, fun _ => rfl⟩

/-- C10: the `maxDrawdown` reported by `runBacktest` is always `≤ 0`: the
scanned drawdown magnitude is negated as `-|maxDD|`, and the trivial
fewer-than-2-dates branch reports `0` — while the standalone
`calculateMaxDrawdown` reports drawdown as a nonnegative percentage. -/
theorem runBacktest_maxDrawdown_nonpos :
    (∀ args : BacktestArgs, (runBacktest args).maxDrawdown ≤ 0)
    ∧ (∀ args : BacktestArgs, args.dates.length < 2 →
        (runBacktest args).maxDrawdown = 0)
    ∧ ∀ prices : List ℝ, 0 ≤ calculateMaxDrawdown prices := by
  have hval : ∀ args : BacktestArgs,
      (runBacktest args).maxDrawdown = 0 ∨
      ∃ x : ℝ, (runBacktest args).maxDrawdown = -|x| := by
    intro args
    by_cases h : args.dates.length < 2
    · left
      simp only [runBacktest]
      rw [if_pos h]
    · right
      simp only [runBacktest]
      rw [if_neg h]
      exact ⟨_, rfl⟩
  refine ⟨fun args => ?_, fun args h => ?_, fun prices => ?_⟩
  · rcases hval args with h | ⟨x, h⟩
    · rw [h]
    · rw [h]; exact neg_nonpos.mpr (abs_nonneg x)
  · simp only [runBacktest]
    rw [if_pos h]
  · unfold calculateMaxDrawdown
    split
    · exact le_refl 0
    · have := mddFold_nonneg prices (prices.headD 0) 0 le_rfl
      positivity

theorem length_matVec {α : Type} [LinearOrderedField α] (A : List (List α)) (x : List α) :
    (matVec A x).length = A.length := by
  simp [matVec]

theorem length_subtract {α : Type} [LinearOrderedField α] (a b : List α) :
    (subtract a b).length = min a.length b.length := by
  simp [subtract]

theorem length_scaleVec {α : Type} [LinearOrderedField α] (a : List α) (s : α) :
    (scaleVec a s).length = a.length := by
  simp [scaleVec]

theorem length_tailShares (w : List ℝ) (sigma : List (List ℝ)) (kA : ℝ) :
    (tailRiskContributions w sigma kA).2.length = min w.length sigma.length := by
  unfold tailRiskContributions
  simp only []
  split <;> simp [List.length_zip, length_matVec]

theorem length_objectiveGradient (w mu : List ℝ) (sigma : List (List ℝ)) (kA : ℝ)
    (b : Option (List ℝ)) (lam : ℝ) (n : ℕ) (hw : w.length = n) (hmu : mu.length = n)
    (hsig : sigma.length = n) (hb : ∀ bb, b = some bb → bb.length = n) :
    (objectiveGradient w mu sigma kA b lam).length = n := by
  unfold objectiveGradient
  cases b with
  | none => simp [List.length_zip, length_matVec, hmu, hsig]
  | some bb =>
    have hbb := hb bb rfl
    by_cases hl : lam > 0
    · simp [hl, List.length_zip, length_matVec, length_tailShares, hw, hmu, hsig, hbb]
    · simp [hl, List.length_zip, length_matVec, hmu, hsig]

theorem projectFeasible_length {α : Type} [LinearOrderedField α]
    (w : List α) (ub : List (Option α)) :
    (projectFeasible w ub).length = min w.length ub.length := by
  unfold projectFeasible
  rw [List.length_map]
  have h := congrArg List.length
    (projLoop_ubs 1000 ((w.zip ub).map fun p => ⟨clampUB p.1 p.2, p.2, true⟩))
  simp only [List.length_map] at h
  rw [h, List.length_zip]

theorem normalizeBudgets_length (bo : Option (List ℝ)) (n : ℕ) (b : List ℝ)
    (h : normalizeBudgets bo n = some b) : b.length = n := by
  unfold normalizeBudgets at h
  cases bo with
  | none => cases h
  | some bb =>
    change (if bb.length ≠ n then none else if bb.sum ≤ tiny then none
      else some (bb.map fun v => v / bb.sum)) = some b at h
    by_cases h1 : bb.length ≠ n
    · rw [if_pos h1] at h; cases h
    · rw [if_neg h1] at h
      by_cases h2 : bb.sum ≤ tiny
      · rw [if_pos h2] at h; cases h
      · rw [if_neg h2] at h
        injection h with h
        rw [← h, List.length_map]
        omega

theorem lineSearch_shape (mu : List ℝ) (sigma : List (List ℝ)) (kA : ℝ)
    (b : Option (List ℝ)) (lam aβ aσ : ℝ) (ubs : List (Option ℝ)) (x : List ℝ)
    (fx : ℝ) (grad : List ℝ) (gN : ℝ) :
    ∀ (ls : ℕ) (step : ℝ) (c : List ℝ) (fc : ℝ),
      lineSearch mu sigma kA b lam aβ aσ ubs x fx grad gN ls step = some (c, fc) →
      ∃ s, c = projectFeasible (subtract x (scaleVec grad s)) ubs := by
  intro ls
  induction ls with
  | zero => intro step c fc h; cases h
  | succ k ih =>
    intro step c fc h
    rw [lineSearch] at h
    split at h
    · injection h with h
      exact ⟨step, (congrArg Prod.fst h).symm⟩
    · exact ih _ _ _ h

/-- Invariant carried through the projected gradient descent: componentwise
bounds against the caps, and the near-unit sum whenever the caps are
feasible. -/
def GoodW (ubs : List (Option ℝ)) (w : List ℝ) : Prop :=
  List.Forall₂ (fun x ou => 0 ≤ x ∧ ∀ u, ou = some u → x ≤ u) w ubs
  ∧ (1 ≤ (ubs.map fun ou => ou.getD 1).sum → |w.sum - 1| < tolProj)

theorem goodW_project (ubs : List (Option ℝ)) (inp : List ℝ)
    (hub : ∀ ou ∈ ubs, ∀ u, ou = some u → 0 ≤ u)
    (hlen : inp.length = ubs.length) (hn : inp.length + 2 ≤ 1000) :
    GoodW ubs (projectFeasible inp ubs) :=
  projectFeasible_spec inp ubs hlen hub hn

theorem descend_good (mu : List ℝ) (sigma : List (List ℝ)) (kA : ℝ)
    (b : Option (List ℝ)) (lam tol aβ aσ : ℝ) (ubs : List (Option ℝ)) (n : ℕ)
    (hmu : mu.length = n) (hsig : sigma.length = n) (hubs : ubs.length = n)
    (hub : ∀ ou ∈ ubs, ∀ u, ou = some u → 0 ≤ u)
    (hb : ∀ bb, b = some bb → bb.length = n) (hn : n + 2 ≤ 1000) :
    ∀ (fuel iter : ℕ) (x : List ℝ) (fx : ℝ), GoodW ubs x →
      GoodW ubs (descend mu sigma kA b lam tol aβ aσ ubs fuel iter x fx).1 := by
  intro fuel
  induction fuel with
  | zero =>
    intro iter x fx hx
    rw [descend]
    exact hx
  | succ f ih =>
    intro iter x fx hx
    rw [descend]
    split
    · exact hx
    · split
      · next c fc heq =>
        apply ih
        obtain ⟨s, rfl⟩ := lineSearch_shape _ _ _ _ _ _ _ _ _ _ _ _ _ _ _ _ heq
        have hxlen : x.length = n := hx.1.length_eq.trans hubs
        apply goodW_project ubs _ hub
        · rw [length_subtract, length_scaleVec,
            length_objectiveGradient x mu sigma kA b lam n hxlen hmu hsig hb, hxlen, hubs]
          simp
        · rw [length_subtract, length_scaleVec,
            length_objectiveGradient x mu sigma kA b lam n hxlen hmu hsig hb, hxlen]
          simpa using hn
      · exact hx

theorem vol_zero_cov2 : calculatePortfolioVolatility [1/2, 1/2] [[0, 0], [0, 0]] = 0 := by
  simp [calculatePortfolioVolatility, dot, matVec]

/-- C2: on the all-zero 2×2 covariance matrix (two flat price series,
no volatility) `optimizeERC` — called with its TS defaults
`maxIterations = 1000`, `tolerance = 1e-6`, no budgets — hits the
`portfolioVol === 0` short-circuit on the first iteration and returns the
equal weights `[0.5, 0.5]` with `converged = false`, zero risk
contributions, zero volatility and zero iterations; no division by `σ_p`
is ever performed and no error is raised. -/
theorem erc_flat_prices :
    optimizeERC [[0, 0], [0, 0]] 1000 (1 / (10 : ℝ) ^ 6) none
      = .ok { weights := [1/2, 1/2], riskContributions := [0, 0],
              portfolioVolatility := 0, converged := false, iterations := 0 } := by
  have hrep : List.replicate 2 ((1 : ℝ) / 2) = [1/2, 1/2] := rfl
  have hiter : ∀ tol : ℝ, ercIterate [[0, 0], [0, 0]] none tol 1000 0 [1/2, 1/2]
      = ([1/2, 1/2], false, 0) := by
    intro tol
    rw [show (1000 : ℕ) = 999 + 1 from rfl, ercIterate]
    simp only [vol_zero_cov2, if_pos]
  have hrc : calculateRiskContributions [1/2, 1/2] [[0, 0], [0, 0]] = ([0, 0], [0, 0]) := by
    rw [calculateRiskContributions]
    simp only [vol_zero_cov2, if_pos]
    rfl
  unfold optimizeERC ercRun
  norm_num [hrep, hiter, hrc, vol_zero_cov2]

theorem sum_map_div (l : List ℝ) (s : ℝ) : (l.map fun v => v / s).sum = l.sum / s := by
  induction l with
  | nil => simp
  | cons a t ih => simp [ih, add_div]

theorem es_isOk_iff (opts : ESOptions) :
    (optimizeExpectedShortfall opts).isOk = true ↔
      ¬ opts.mu.length = 0 ∧ opts.sigma.length = opts.mu.length ∧
        ∀ row ∈ opts.sigma, row.length = opts.mu.length := by
  unfold optimizeExpectedShortfall
  by_cases h1 : opts.mu.length = 0
  · rw [if_pos h1]
    simp [Except.isOk, Except.toBool, h1]
  · rw [if_neg h1]
    by_cases h2 : ¬(opts.sigma.length = opts.mu.length ∧
        ∀ row ∈ opts.sigma, row.length = opts.mu.length)
    · rw [if_pos h2]
      simp only [Except.isOk, Except.toBool]
      constructor
      · intro h; cases h
      · intro h; exact absurd ⟨h.2.1, h.2.2⟩ h2
    · rw [if_neg h2]
      push_neg at h2
      simp only [Except.isOk, Except.toBool, h1, h2.1, h2.2]
      simp only [not_false_eq_true, true_and]
      constructor
      · intro _; exact h2.2
      · intro _; trivial

/-- Concrete ES options with 2 assets, zero covariance and budgets `[2, 2]`
(which sum to 4, not 1). -/
noncomputable def esBudgetOpts : ESOptions :=
  { mu := [0, 0], sigma := [[0, 0], [0, 0]], alpha := none, budgets := some [2, 2]
    budgetStrength := none, caps := none, initialWeights := none
    maxIterations := none, tolerance := none, armijoBeta := none, armijoSigma := none }

/-- C4 counterexample: `optimizeExpectedShortfall` called with budgets
`[2, 2]` — whose sum 4 violates the sum-to-1 requirement by far more than
any tolerance — does NOT raise a `DataError`: it returns a result
(`normalizeBudgets` silently rescales the budgets instead of validating
them). -/
theorem es_budgets_not_validated_cex :
    (optimizeExpectedShortfall esBudgetOpts).isOk = true
    ∧ ¬ (|([2, 2] : List ℝ).sum - 1| ≤ 1 / (10 : ℝ) ^ 6) := by
  constructor
  · rw [es_isOk_iff]
    refine ⟨by norm_num [esBudgetOpts], by norm_num [esBudgetOpts], ?_⟩
    intro row hrow
    simp only [esBudgetOpts, List.mem_cons, List.not_mem_nil, or_false] at hrow
    rcases hrow with rfl | rfl <;> norm_num [esBudgetOpts]
  · norm_num

/-- C4 amended: only `optimizeERC` validates budgets, raising immediately on
a length mismatch and on `|Σb - 1| > 1e-6` with no partial recovery;
`optimizeExpectedShortfall` never raises on account of budgets — whether it
throws is entirely independent of the budgets argument, because
`normalizeBudgets` silently drops length-mismatched budgets and silently
rescales any budgets with sum above `1e-16` to sum exactly 1. -/
theorem budgets_validation_amended :
    (∀ (cov : List (List ℝ)) (mi : ℕ) (tol : ℝ) (b : List ℝ),
      b.length ≠ cov.length →
        optimizeERC cov mi tol (some b) = .error .budgetsLength)
    ∧ (∀ (cov : List (List ℝ)) (mi : ℕ) (tol : ℝ) (b : List ℝ),
      b.length = cov.length → |b.sum - 1| > 1 / (10 : ℝ) ^ 6 →
        optimizeERC cov mi tol (some b) = .error .budgetsSum)
    ∧ (∀ (opts : ESOptions) (b : Option (List ℝ)),
      (optimizeExpectedShortfall { opts with budgets := b }).isOk
        = (optimizeExpectedShortfall opts).isOk)
    ∧ ∀ (b : List ℝ) (n : ℕ), b.length = n → tiny < b.sum →
        ∃ nb, normalizeBudgets (some b) n = some nb ∧ nb.sum = 1 := by
  refine ⟨fun cov mi tol b h => ?_, fun cov mi tol b h1 h2 => ?_,
    fun opts b => ?_, fun b n h1 h2 => ?_⟩
  · show (if b.length ≠ cov.length then _ else _) = _
    rw [if_pos h]
  · show (if b.length ≠ cov.length then _ else
      if |b.sum - 1| > 1 / (10 : ℝ) ^ 6 then _ else _) = _
    rw [if_neg (by simp [h1]), if_pos h2]
  · rw [Bool.eq_iff_iff, es_isOk_iff, es_isOk_iff]
  · refine ⟨b.map fun v => v / b.sum, ?_, ?_⟩
    · show (if b.length ≠ n then _ else if b.sum ≤ tiny then _ else _) = _
      rw [if_neg (by simp [h1]), if_neg (not_le.mpr h2)]
    · rw [sum_map_div]
      have hpos : 0 < b.sum := lt_trans (by unfold tiny; positivity) h2
      field_simp

/-- C4 witness: the amended statement applied at concrete inputs — ERC
rejects a length-1 budget on 2 assets and the budgets `[2, 2]`, while ES's
acceptance is budget-independent and `normalizeBudgets` rescales `[2, 2]`
to sum 1. -/
theorem budgets_validation_witness :
    optimizeERC [[0, 0], [0, 0]] 1000 (1 / (10 : ℝ) ^ 6) (some [1])
      = .error .budgetsLength
    ∧ optimizeERC [[0, 0], [0, 0]] 1000 (1 / (10 : ℝ) ^ 6) (some [2, 2])
      = .error .budgetsSum
    ∧ (optimizeExpectedShortfall { esBudgetOpts with budgets := some [2, 2] }).isOk
      = (optimizeExpectedShortfall esBudgetOpts).isOk
    ∧ ∃ nb, normalizeBudgets (some [2, 2]) 2 = some nb ∧ nb.sum = 1 :=
  ⟨budgets_validation_amended.1 _ _ _ _ (by norm_num),
   budgets_validation_amended.2.1 _ _ _ _ (by norm_num) (by norm_num),
   budgets_validation_amended.2.2.1 _ _,
   budgets_validation_amended.2.2.2 [2, 2] 2 (by norm_num)
     (by unfold tiny; norm_num)⟩

theorem invNormCdf_central (p : ℝ) (h0 : ¬(p ≤ 0 ∨ 1 ≤ p)) (h1 : ¬(p < 0.02425))
    (h2 : ¬(p > 1 - 0.02425)) :
    invNormCdf p =
      (((((-39.69683028665376 * ((p - 0.5) * (p - 0.5)) + 220.9460984245205) *
        ((p - 0.5) * (p - 0.5)) + -275.9285104469687) * ((p - 0.5) * (p - 0.5)) +
        138.3577518672690) * ((p - 0.5) * (p - 0.5)) + -30.66479806614716) *
        ((p - 0.5) * (p - 0.5)) + 2.506628277459239) * (p - 0.5) /
      (((((-54.47609879822406 * ((p - 0.5) * (p - 0.5)) + 161.5858368580409) *
        ((p - 0.5) * (p - 0.5)) + -155.6989798598866) * ((p - 0.5) * (p - 0.5)) +
        66.80131188771972) * ((p - 0.5) * (p - 0.5)) + -13.28068155288572) *
        ((p - 0.5) * (p - 0.5)) + 1) := by
  unfold invNormCdf
  rw [if_neg h0, if_neg h1, if_neg h2]

theorem log_two_gt_three_fifths : (3 : ℝ) / 5 < Real.log 2 := by
  have h1 : Real.exp 1 < 2.7182818286 := Real.exp_one_lt_d9
  have h3 : Real.exp 3 < 32 := by
    have he : Real.exp 3 = (Real.exp 1) ^ (3 : ℕ) := by
      rw [← Real.exp_nat_mul]; norm_num
    rw [he]
    calc (Real.exp 1) ^ (3 : ℕ) < 2.7182818286 ^ (3 : ℕ) := by gcongr
      _ < 32 := by norm_num
  have h35 : Real.exp (3 / 5) < 2 := by
    by_contra hc
    push_neg at hc
    have hpow : (2 : ℝ) ^ (5 : ℕ) ≤ (Real.exp (3 / 5)) ^ (5 : ℕ) := by gcongr
    have he : (Real.exp (3 / 5)) ^ (5 : ℕ) = Real.exp 3 := by
      rw [← Real.exp_nat_mul]; norm_num
    rw [he] at hpow
    norm_num at hpow
    linarith
  calc (3 : ℝ) / 5 = Real.log (Real.exp (3 / 5)) := (Real.log_exp _).symm
    _ < Real.log 2 := Real.log_lt_log (Real.exp_pos _) h35

theorem sq_diff_bound :
    (invNormCdf 0.975 * invNormCdf 0.975 - invNormCdf 0.95 * invNormCdf 0.95) / 2
      < 3 / 5 := by
  rw [invNormCdf_central (0.95 : ℝ) (by norm_num) (by norm_num) (by norm_num),
    invNormCdf_central (0.975 : ℝ) (by norm_num) (by norm_num) (by norm_num)]
  norm_num

/-- The hard-coded `kAlpha` (at α = 0.95) genuinely differs from the value
k_α would take at α = 0.975. -/
theorem kAlpha_095_ne_0975 :
    normalPdf (invNormCdf 0.95) / (1 - 0.95)
      ≠ normalPdf (invNormCdf 0.975) / (1 - 0.975) := by
  intro heq
  set z1 := invNormCdf 0.95 with hz1
  set z2 := invNormCdf 0.975 with hz2
  have hs : (0 : ℝ) < Real.sqrt (2 * Real.pi) :=
    Real.sqrt_pos.mpr (by positivity)
  have hexp2 := Real.exp_pos (-0.5 * z2 * z2)
  unfold normalPdf at heq
  have hstep : Real.exp (-0.5 * z1 * z1) * (Real.sqrt (2 * Real.pi) * (1 - 0.975))
      = Real.exp (-0.5 * z2 * z2) * (Real.sqrt (2 * Real.pi) * (1 - 0.95)) := by
    rw [div_div, div_div] at heq
    exact (div_eq_div_iff (by positivity) (by positivity)).mp heq
  have h' : Real.sqrt (2 * Real.pi) * (Real.exp (-0.5 * z1 * z1) * (1 - 0.975))
      = Real.sqrt (2 * Real.pi) * (Real.exp (-0.5 * z2 * z2) * (1 - 0.95)) := by
    linear_combination hstep
  have hcancel := mul_left_cancel₀ (ne_of_gt hs) h'
  have h2 : Real.exp (-0.5 * z1 * z1) = 2 * Real.exp (-0.5 * z2 * z2) := by
    norm_num at hcancel
    have h01 : Real.exp (-(1 / 2 * z1 * z1)) = Real.exp (-0.5 * z1 * z1) :=
      congrArg Real.exp (by norm_num)
    have h02 : Real.exp (-(1 / 2 * z2 * z2)) = Real.exp (-0.5 * z2 * z2) :=
      congrArg Real.exp (by norm_num)
    rw [h01, h02] at hcancel
    linarith
  have h3 : Real.exp (-0.5 * z1 * z1 - -0.5 * z2 * z2) = 2 := by
    rw [Real.exp_sub, h2, mul_div_assoc, div_self (ne_of_gt hexp2), mul_one]
  have h4 : -0.5 * z1 * z1 - -0.5 * z2 * z2 = Real.log 2 := by
    rw [← Real.log_exp (-0.5 * z1 * z1 - -0.5 * z2 * z2), h3]
  have h5 : (z2 * z2 - z1 * z1) / 2 = Real.log 2 := by
    rw [← h4]; ring
  have h6 := sq_diff_bound
  rw [← hz1, ← hz2] at h6
  have h7 := log_two_gt_three_fifths
  linarith

theorem es_map_kAlpha (opts : ESOptions) :
    (optimizeExpectedShortfall opts).map (fun r => r.kAlpha)
      = (optimizeExpectedShortfall opts).map fun _ =>
          normalPdf (invNormCdf 0.95) / (1 - 0.95) := by
  unfold optimizeExpectedShortfall
  by_cases h1 : opts.mu.length = 0
  · rw [if_pos h1]
    rfl
  · rw [if_neg h1]
    by_cases h2 : ¬(opts.sigma.length = opts.mu.length ∧
        ∀ row ∈ opts.sigma, row.length = opts.mu.length)
    · rw [if_pos h2]
      rfl
    · rw [if_neg h2]
      rfl

/-- Concrete ES options passing `alpha = 0.975` on a well-formed 2-asset
problem. -/
noncomputable def esOpts975 : ESOptions :=
  { mu := [0, 0], sigma := [[0, 0], [0, 0]], alpha := some 0.975, budgets := none
    budgetStrength := none, caps := none, initialWeights := none
    maxIterations := none, tolerance := none, armijoBeta := none, armijoSigma := none }

/-- C5 counterexample: a caller passing `alpha = 0.975` does NOT obtain
results computed with α = 0.975 — the returned `kAlpha` differs from
`φ(Φ⁻¹(0.975))/(1-0.975)`, because the source hard-codes `alpha = 0.95`
(optimizerES.ts:43) and ignores `opts.alpha`. -/
theorem es_alpha_975_ignored_cex :
    (optimizeExpectedShortfall esOpts975).map (fun r => r.kAlpha)
      ≠ .ok (normalPdf (invNormCdf 0.975) / (1 - 0.975)) := by
  have hok : (optimizeExpectedShortfall esOpts975).isOk = true := by
    rw [es_isOk_iff]
    refine ⟨by norm_num [esOpts975], by norm_num [esOpts975], ?_⟩
    intro row hrow
    simp only [esOpts975, List.mem_cons, List.not_mem_nil, or_false] at hrow
    rcases hrow with rfl | rfl <;> norm_num [esOpts975]
  obtain ⟨r, hr⟩ : ∃ r, optimizeExpectedShortfall esOpts975 = .ok r := by
    cases h : optimizeExpectedShortfall esOpts975 with
    | error e => rw [h] at hok; cases hok
    | ok r => exact ⟨r, rfl⟩
  have hmap := es_map_kAlpha esOpts975
  rw [hr] at hmap ⊢
  simp only [Except.map] at hmap ⊢
  intro hcontra
  have : r.kAlpha = normalPdf (invNormCdf 0.975) / (1 - 0.975) := by
    injection hcontra
  have hk95 : r.kAlpha = normalPdf (invNormCdf 0.95) / (1 - 0.95) := by
    injection hmap
  exact kAlpha_095_ne_0975 (hk95 ▸ this)

/-- C5 amended: the tail confidence is NOT configurable: `opts.alpha` is
ignored entirely (the optimizer's result is invariant under changing it),
and every successful result carries the hard-coded
`kAlpha = φ(Φ⁻¹(0.95))/(1-0.95)`. -/
theorem es_alpha_hardcoded :
    (∀ (opts : ESOptions) (a : Option ℝ),
      optimizeExpectedShortfall { opts with alpha := a }
        = optimizeExpectedShortfall opts)
    ∧ ∀ opts : ESOptions,
      (optimizeExpectedShortfall opts).map (fun r => r.kAlpha)
        = (optimizeExpectedShortfall opts).map fun _ =>
            normalPdf (invNormCdf 0.95) / (1 - 0.95) :=
  ⟨fun _ _ => rfl, es_map_kAlpha⟩

theorem esUpperBounds_length (opts : ESOptions)
    (hcaps : ∀ cl, opts.caps = some cl → cl.length = opts.mu.length) :
    (esUpperBounds opts).length = opts.mu.length := by
  unfold esUpperBounds
  cases hc : opts.caps with
  | none => simp
  | some cl => simp [hcaps cl hc]

theorem esUpperBounds_nonneg (opts : ESOptions) :
    ∀ ou ∈ esUpperBounds opts, ∀ u, ou = some u → 0 ≤ u := by
  intro ou hou u hu
  unfold esUpperBounds at hou
  obtain ⟨c, _, rfl⟩ := List.mem_map.mp hou
  cases c with
  | none => cases hu
  | some v =>
    injection hu with hu
    rw [← hu]
    exact le_max_left 0 v

/-- C1 amended: the weights returned by `optimizeExpectedShortfall` always
lie in `[0, cap_i]` and sum to 1 (within the projection's `1e-12` residual
tolerance) PROVIDED that (a) the starting point is actually projected —
i.e. `initialWeights` of matching length, or usable budgets, are supplied
(the default equal-weight start `1/n` is NOT projected, so tight caps can
be violated when the descent stops at the start), and (b) for the sum, the
caps admit a feasible point: `Σ caps ≥ 1` counting missing caps as
infinite.  Well-formedness (caps of length n, at most 998 assets) is
assumed as the source does. -/
theorem es_weights_feasible (opts : ESOptions)
    (hinit : (∃ iw, opts.initialWeights = some iw ∧ iw.length = opts.mu.length)
           ∨ ∃ b0, normalizeBudgets opts.budgets opts.mu.length = some b0)
    (hcaps : ∀ cl, opts.caps = some cl → cl.length = opts.mu.length)
    (hsize : opts.mu.length + 2 ≤ 1000) :
    ∀ w, (optimizeExpectedShortfall opts).map (fun r => r.weights) = .ok w →
      List.Forall₂ (fun x ou => 0 ≤ x ∧ ∀ u, ou = some u → x ≤ u) w
        (esUpperBounds opts)
      ∧ (1 ≤ ((esUpperBounds opts).map fun ou => ou.getD 1).sum →
          |w.sum - 1| < tolProj) := by
  intro w hw
  have hubs : (esUpperBounds opts).length = opts.mu.length := esUpperBounds_length opts hcaps
  have hub := esUpperBounds_nonneg opts
  have hx0 : GoodW (esUpperBounds opts)
      (esInitial opts.mu.length opts.initialWeights
        (normalizeBudgets opts.budgets opts.mu.length) (esUpperBounds opts)) := by
    unfold esInitial
    rcases hinit with ⟨iw, hiw, hlen⟩ | ⟨b0, hb0⟩
    · simp only [hiw]
      rw [if_pos hlen]
      exact goodW_project _ _ hub (hlen.trans hubs.symm) (by omega)
    · cases hiw : opts.initialWeights with
      | some iw =>
        simp only [hiw]
        by_cases hlen : iw.length = opts.mu.length
        · rw [if_pos hlen]
          exact goodW_project _ _ hub (hlen.trans hubs.symm) (by omega)
        · rw [if_neg hlen]
          simp only [hb0]
          have hblen := normalizeBudgets_length _ _ _ hb0
          exact goodW_project _ _ hub (hblen.trans hubs.symm) (by omega)
      | none =>
        simp only [hiw, hb0]
        have hblen := normalizeBudgets_length _ _ _ hb0
        exact goodW_project _ _ hub (hblen.trans hubs.symm) (by omega)
  unfold optimizeExpectedShortfall at hw
  by_cases h1 : opts.mu.length = 0
  · rw [if_pos h1] at hw
    cases hw
  · rw [if_neg h1] at hw
    by_cases h2 : ¬(opts.sigma.length = opts.mu.length ∧
        ∀ row ∈ opts.sigma, row.length = opts.mu.length)
    · rw [if_pos h2] at hw
      cases hw
    · rw [if_neg h2] at hw
      push_neg at h2
      simp only [Except.map] at hw
      injection hw with hw
      rw [← hw]
      exact descend_good opts.mu opts.sigma _ _ _ _ _ _ _ opts.mu.length rfl h2.1 hubs
        hub (fun bb hbb => normalizeBudgets_length _ _ _ hbb) hsize _ _ _ _ hx0

theorem es_ok_eval (opts : ESOptions) (h1 : ¬opts.mu.length = 0)
    (h2 : opts.sigma.length = opts.mu.length ∧
      ∀ row ∈ opts.sigma, row.length = opts.mu.length) :
    (optimizeExpectedShortfall opts).map (fun r => r.weights)
      = .ok (descend opts.mu opts.sigma (normalPdf (invNormCdf 0.95) / (1 - 0.95))
          (normalizeBudgets opts.budgets opts.mu.length)
          (match normalizeBudgets opts.budgets opts.mu.length with
            | some _ => max 0 (opts.budgetStrength.getD 0.5)
            | none => 0)
          (opts.tolerance.getD (1 / (10 : ℝ) ^ 8)) (opts.armijoBeta.getD 0.5)
          (opts.armijoSigma.getD (1 / (10 : ℝ) ^ 4)) (esUpperBounds opts)
          (opts.maxIterations.getD 500) 0
          (esInitial opts.mu.length opts.initialWeights
            (normalizeBudgets opts.budgets opts.mu.length) (esUpperBounds opts))
          (evaluateObjective
            (esInitial opts.mu.length opts.initialWeights
              (normalizeBudgets opts.budgets opts.mu.length) (esUpperBounds opts))
            opts.mu opts.sigma (normalPdf (invNormCdf 0.95) / (1 - 0.95))
            (normalizeBudgets opts.budgets opts.mu.length)
            (match normalizeBudgets opts.budgets opts.mu.length with
              | some _ => max 0 (opts.budgetStrength.getD 0.5)
              | none => 0))).1 := by
  unfold optimizeExpectedShortfall
  rw [if_neg h1, if_neg (not_not_intro h2)]
  rfl

theorem grad_zero2 (kA lam : ℝ) :
    objectiveGradient [1/2, 1/2] [0, 0] [[0, 0], [0, 0]] kA none lam = [0, 0] := by
  unfold objectiveGradient
  norm_num [matVec, dot]

theorem descend_zero2 (kA lam fx aβ aσ : ℝ) (ubs : List (Option ℝ)) (fuel : ℕ) :
    descend [0, 0] [[0, 0], [0, 0]] kA none lam (1 / (10 : ℝ) ^ 8) aβ aσ ubs
      (fuel + 1) 0 [1/2, 1/2] fx = ([1/2, 1/2], fx, 0, true) := by
  rw [descend]
  simp only [grad_zero2]
  rw [show dot ([0, 0] : List ℝ) [0, 0] = 0 by norm_num [dot], Real.sqrt_zero,
    if_pos (by norm_num : (0 : ℝ) < 1 / (10 : ℝ) ^ 8)]

/-- ES options with tight caps `[0.1, 0.1]` on a 2-asset zero-covariance
problem, with no initial weights and no budgets. -/
noncomputable def esCapsOpts : ESOptions :=
  { mu := [0, 0], sigma := [[0, 0], [0, 0]], alpha := none, budgets := none
    budgetStrength := none, caps := some [some (1/10), some (1/10)]
    initialWeights := none, maxIterations := none, tolerance := none
    armijoBeta := none, armijoSigma := none }

/-- C1 counterexample: with caps `0.1` per asset but no `initialWeights`
and no budgets, `optimizeExpectedShortfall` starts from the UNPROJECTED
equal weights `[0.5, 0.5]`; on the zero covariance matrix the gradient
vanishes immediately, so the returned weights are `[0.5, 0.5]` — violating
the cap `w_0 ≤ 0.1`. -/
theorem es_caps_violated_cex :
    (optimizeExpectedShortfall esCapsOpts).map (fun r => r.weights) = .ok [1/2, 1/2]
    ∧ esCapsOpts.caps = some [some (1/10), some (1/10)]
    ∧ ¬ ((1 : ℝ)/2 ≤ 1/10) := by
  refine ⟨?_, rfl, by norm_num⟩
  rw [es_ok_eval esCapsOpts (by norm_num [esCapsOpts])
    ⟨by norm_num [esCapsOpts], by
      intro row hrow
      simp only [esCapsOpts, List.mem_cons, List.not_mem_nil, or_false] at hrow
      rcases hrow with rfl | rfl <;> norm_num [esCapsOpts]⟩]
  have hb : normalizeBudgets esCapsOpts.budgets esCapsOpts.mu.length = none := rfl
  have hinit : esInitial esCapsOpts.mu.length esCapsOpts.initialWeights none
      (esUpperBounds esCapsOpts) = [1/2, 1/2] := by
    show List.replicate esCapsOpts.mu.length ((1 : ℝ) / esCapsOpts.mu.length) = _
    norm_num [esCapsOpts]
    rfl
  rw [hb, hinit]
  rw [show esCapsOpts.tolerance.getD (1 / (10 : ℝ) ^ 8) = 1 / (10 : ℝ) ^ 8 from rfl]
  rw [show esCapsOpts.maxIterations.getD 500 = 499 + 1 from rfl]
  rw [show esCapsOpts.mu = [0, 0] from rfl, show esCapsOpts.sigma = [[0, 0], [0, 0]] from rfl]
  rw [descend_zero2]

/-- ES options with feasible caps `[1, 1]` and explicit initial weights
`[0.5, 0.5]` on the 2-asset zero-covariance problem. -/
noncomputable def esProjOpts : ESOptions :=
  { mu := [0, 0], sigma := [[0, 0], [0, 0]], alpha := none, budgets := none
    budgetStrength := none, caps := some [some 1, some 1]
    initialWeights := some [1/2, 1/2], maxIterations := none, tolerance := none
    armijoBeta := none, armijoSigma := none }

theorem esProjOpts_ubs : esUpperBounds esProjOpts = [some 1, some 1] := by
  simp [esUpperBounds, esProjOpts]

theorem proj_half : projectFeasible ([1/2, 1/2] : List ℝ) [some 1, some 1]
    = [1/2, 1/2] := by
  unfold projectFeasible
  have hinit : (([1/2, 1/2] : List ℝ).zip [some 1, some 1]).map
      (fun p => (⟨clampUB p.1 p.2, p.2, true⟩ : PCoord ℝ))
      = [⟨1/2, some 1, true⟩, ⟨1/2, some 1, true⟩] := by
    norm_num [clampUB]
  rw [hinit, show (1000 : ℕ) = 999 + 1 from rfl, projLoop_exit1]
  · rfl
  · norm_num [sumX, tolProj]

theorem es_proj_eval :
    (optimizeExpectedShortfall esProjOpts).map (fun r => r.weights)
      = .ok [1/2, 1/2] := by
  rw [es_ok_eval esProjOpts (by norm_num [esProjOpts])
    ⟨by norm_num [esProjOpts], by
      intro row hrow
      simp only [esProjOpts, List.mem_cons, List.not_mem_nil, or_false] at hrow
      rcases hrow with rfl | rfl <;> norm_num [esProjOpts]⟩]
  have hb : normalizeBudgets esProjOpts.budgets esProjOpts.mu.length = none := rfl
  have hinit : esInitial esProjOpts.mu.length esProjOpts.initialWeights none
      (esUpperBounds esProjOpts) = [1/2, 1/2] := by
    show (if ([1/2, 1/2] : List ℝ).length = esProjOpts.mu.length
      then projectFeasible [1/2, 1/2] (esUpperBounds esProjOpts)
      else List.replicate esProjOpts.mu.length ((1 : ℝ) / esProjOpts.mu.length)) = _
    rw [if_pos (by norm_num [esProjOpts]), esProjOpts_ubs, proj_half]
  rw [hb, hinit]
  rw [show esProjOpts.tolerance.getD (1 / (10 : ℝ) ^ 8) = 1 / (10 : ℝ) ^ 8 from rfl]
  rw [show esProjOpts.maxIterations.getD 500 = 499 + 1 from rfl]
  rw [show esProjOpts.mu = [0, 0] from rfl,
    show esProjOpts.sigma = [[0, 0], [0, 0]] from rfl]
  rw [descend_zero2]

/-- C1 witness: the amended statement applied to the concrete run with
initial weights `[0.5, 0.5]` and feasible caps `[1, 1]`: the returned
weights `[0.5, 0.5]` respect the caps and sum to 1 within `1e-12`. -/
theorem es_weights_feasible_witness :
    List.Forall₂ (fun x ou => 0 ≤ x ∧ ∀ u, ou = some u → x ≤ u)
      ([1/2, 1/2] : List ℝ) (esUpperBounds esProjOpts)
    ∧ |(([1/2, 1/2] : List ℝ)).sum - 1| < tolProj := by
  have h := es_weights_feasible esProjOpts
    (Or.inl ⟨[1/2, 1/2], rfl, by norm_num [esProjOpts]⟩)
    (by
      intro cl hcl
      have hcl2 : [some (1 : ℝ), some 1] = cl := by
        have : esProjOpts.caps = some [some 1, some 1] := rfl
        rw [this] at hcl
        injection hcl
      rw [← hcl2]
      norm_num [esProjOpts])
    (by norm_num [esProjOpts])
    [1/2, 1/2] es_proj_eval
  refine ⟨h.1, h.2 ?_⟩
  rw [esProjOpts_ubs]
  norm_num

/-- C3 amended: when `outputStartIdx = k > 0` is in range and the simulated
portfolio value at index `k` is POSITIVE, the first reported value equals
`initialCapital` exactly, and the retained rebalance events are exactly the
events whose date survives the slice, with each monetary field multiplied
by the same uniform factor `initialCapital / value-at-k` and re-rounded to
cents (`scaleEvent`).  When the value at `k` is `≤ 0` the source sets
`scale = 1` and no rebasing happens, so the claim fails there. -/
theorem burnin_rebase_amended (args : BacktestArgs)
    (h2 : 2 ≤ args.dates.length)
    (hk : 0 < min args.outputStartIdx (args.dates.length - 1))
    (hlen : min args.outputStartIdx (args.dates.length - 1)
      < (runDays args).portfolioValues.length)
    (hbase : 0 < (runDays args).portfolioValues.getD
      (min args.outputStartIdx (args.dates.length - 1)) 0) :
    (runBacktest args).portfolioValues.headD 0 = args.initialValue
    ∧ (runBacktest args).rebalanceDates
      = ((runDays args).events.filter fun ev =>
          (args.dates.drop (min args.outputStartIdx (args.dates.length - 1))).contains
            ev.date).map
        (scaleEvent (args.initialValue /
          (runDays args).portfolioValues.getD
            (min args.outputStartIdx (args.dates.length - 1)) 0)) := by
  have hnot : ¬ args.dates.length < 2 := by omega
  constructor
  · simp only [runBacktest]
    rw [if_neg hnot, if_pos ⟨hk, hlen⟩, if_pos ⟨hk, hlen⟩, if_pos hbase]
    set k := min args.outputStartIdx (args.dates.length - 1)
    set vals := (runDays args).portfolioValues
    have hget : vals[k]? = some (vals.getD k 0) := by
      rw [List.getD_eq_getElem?_getD]
      cases hv : vals[k]? with
      | none => rw [List.getElem?_eq_none_iff] at hv; omega
      | some v => rfl
    rw [List.headD_eq_head?, List.head?_map, List.head?_drop, hget]
    simp only [Option.map_some', Option.getD_some]
    have hne : vals[k] ≠ 0 := by
      have hb := hbase
      rw [List.getD_eq_getElem vals 0 hlen] at hb
      exact ne_of_gt hb
    field_simp
  · simp only [runBacktest]
    have hA : 0 < min args.outputStartIdx (args.dates.length - 1)
        ∧ min args.outputStartIdx (args.dates.length - 1)
          < (runDays args).portfolioValues.length := ⟨hk, hlen⟩
    rw [if_neg hnot, if_pos hk, if_pos hA, if_pos hA, if_pos hA, if_pos hbase]

/-- A concrete one-asset two-day backtest with `outputStartIdx = 1`: the
asset's price drops from 1 to 0 on the second day, so the simulated value
at the burn-in index is 0. -/
noncomputable def c3CexArgs : BacktestArgs :=
  { prices := [[1, 0]]
    dividends := [[0, 0]]
    dates := [⟨2020, 1, 2⟩, ⟨2020, 1, 3⟩]
    initialWeights := [1]
    tickers := [0]
    rebalanceConfig := { frequency := Freq.annually, transactionCost := 0 }
    initialValue := 10000
    reinvestDividends := true
    targetBudgets := none
    lookbackPeriodYears := none
    maintainFixedWeights := true
    useES := false
    outputStartIdx := 1 }

/-- The same backtest with the price going 1 → 2 instead, so the value at
the burn-in index is 20000 > 0. -/
noncomputable def c3WitArgs : BacktestArgs :=
  { c3CexArgs with prices := [[1, 2]] }

theorem c3_cex_runDays :
    (runDays c3CexArgs).portfolioValues = [10000, 0]
    ∧ (runDays c3CexArgs).events = [] := by
  have h1 : runDays c3CexArgs = stepDay c3CexArgs (initState c3CexArgs) 1 := rfl
  have hsr : shouldRebalance (⟨2020, 1, 3⟩ : SimDate) ⟨2020, 1, 2⟩
      Freq.annually = false := by decide
  rw [h1]
  simp only [stepDay, initState, c3CexArgs]
  norm_num [hsr, List.range_succ, List.getD]

theorem c3_wit_runDays :
    (runDays c3WitArgs).portfolioValues = [10000, 20000]
    ∧ (runDays c3WitArgs).events = [] := by
  have h1 : runDays c3WitArgs = stepDay c3WitArgs (initState c3WitArgs) 1 := rfl
  have hsr : shouldRebalance (⟨2020, 1, 3⟩ : SimDate) ⟨2020, 1, 2⟩
      Freq.annually = false := by decide
  rw [h1]
  simp only [stepDay, initState, c3WitArgs, c3CexArgs]
  norm_num [hsr, List.range_succ, List.getD]

/-- C3 counterexample: in `c3CexArgs` the burn-in premises of the claim all
hold (two dates, `outputStartIdx = 1 > 0`, in range), yet the first value
of the returned series is 0, not the initial capital 10000: the source
only rebases when the value at the slice index is positive (`baseVal > 0`,
backtest.ts:421), otherwise it silently keeps `scale = 1`. -/
theorem burnin_rebase_cex :
    2 ≤ c3CexArgs.dates.length
    ∧ 0 < min c3CexArgs.outputStartIdx (c3CexArgs.dates.length - 1)
    ∧ min c3CexArgs.outputStartIdx (c3CexArgs.dates.length - 1)
        < (runDays c3CexArgs).portfolioValues.length
    ∧ (runBacktest c3CexArgs).portfolioValues.headD 0 = 0
    ∧ c3CexArgs.initialValue = 10000
    ∧ (0 : ℝ) ≠ 10000 := by
  have hv := c3_cex_runDays.1
  have hlen : (runDays c3CexArgs).portfolioValues.length = 2 := by rw [hv]; rfl
  refine ⟨by norm_num [c3CexArgs], by norm_num [c3CexArgs],
    by rw [hlen]; norm_num [c3CexArgs], ?_, rfl, by norm_num⟩
  have hnot : ¬ c3CexArgs.dates.length < 2 := by norm_num [c3CexArgs]
  have hk1 : min c3CexArgs.outputStartIdx (c3CexArgs.dates.length - 1) = 1 := by
    norm_num [c3CexArgs]
  have hA : 0 < min c3CexArgs.outputStartIdx (c3CexArgs.dates.length - 1)
      ∧ min c3CexArgs.outputStartIdx (c3CexArgs.dates.length - 1)
        < (runDays c3CexArgs).portfolioValues.length := by
    rw [hk1, hlen]; norm_num
  have hbase : ¬ ((runDays c3CexArgs).portfolioValues.getD
      (min c3CexArgs.outputStartIdx (c3CexArgs.dates.length - 1)) 0 > 0) := by
    rw [hk1, hv]; norm_num [List.getD]
  simp only [runBacktest]
  rw [if_neg hnot, if_pos hA, if_neg hbase]
  rw [hk1, hv]
  norm_num [List.getD]

/-- C3 witness: the amended statement applied to the concrete run
`c3WitArgs` (value at the slice index is 20000 > 0): the first reported
value is exactly the initial capital 10000 and, since no rebalance event
was logged, the retained event list is empty. -/
theorem burnin_rebase_witness :
    (runBacktest c3WitArgs).portfolioValues.headD 0 = c3WitArgs.initialValue
    ∧ (runBacktest c3WitArgs).rebalanceDates = [] := by
  have hv := c3_wit_runDays.1
  have hev := c3_wit_runDays.2
  have hlen2 : (runDays c3WitArgs).portfolioValues.length = 2 := by rw [hv]; rfl
  have hk1 : min c3WitArgs.outputStartIdx (c3WitArgs.dates.length - 1) = 1 := by
    norm_num [c3WitArgs, c3CexArgs]
  have h := burnin_rebase_amended c3WitArgs
    (by norm_num [c3WitArgs, c3CexArgs])
    (by rw [hk1]; norm_num)
    (by rw [hk1, hlen2]; norm_num)
    (by rw [hk1, hv]; norm_num [List.getD])
  refine ⟨h.1, ?_⟩
  rw [h.2, hev]
  rfl

theorem mkChanges_tradeAmounts (tickers : List ℕ)
    (pricesT targets beforeW prevTargets : List ℝ) (pac : ℝ)
    (hlen : pricesT.length = tickers.length)
    (hpos : ∀ i < tickers.length, 0 < pricesT.getD i 0) :
    ((mkChanges tickers pricesT (resizeShares pricesT pac targets) pac targets
        beforeW prevTargets).map fun ch => ch.tradeAmount)
      = List.replicate tickers.length 0 := by
  unfold mkChanges
  rw [List.map_map]
  have hmap : ∀ i ∈ List.range tickers.length,
      ((fun ch => ch.tradeAmount) ∘ fun i =>
        ({ ticker := tickers.getD i 0
           beforeWeight := round2 (beforeW.getD i 0)
           afterWeight := round2 (targets.getD i 0 * 100)
           drift := round2 (beforeW.getD i 0 - prevTargets.getD i 0 * 100)
           tradeAmount := round2 |pac * targets.getD i 0 -
             (resizeShares pricesT pac targets).getD i 0 * pricesT.getD i 0| }
          : RebalanceChange)) i = (0 : ℝ) := by
    intro i hi
    rw [List.mem_range] at hi
    have hp := hpos i hi
    have hilt : i < pricesT.length := by rw [hlen]; exact hi
    have hrs : (resizeShares pricesT pac targets).getD i 0
        = pac * targets.getD i 0 / pricesT.getD i 0 := by
      unfold resizeShares
      rw [List.getD_eq_getElem _ _ (by simpa using hilt)]
      rw [List.getElem_map, List.getElem_range]
      rw [if_pos hp]
    show round2 |pac * targets.getD i 0 -
      (resizeShares pricesT pac targets).getD i 0 * pricesT.getD i 0| = 0
    rw [hrs, div_mul_cancel₀ _ (ne_of_gt hp)]
    rw [sub_self, abs_zero, round2_zero]
  rw [List.map_congr_left hmap]
  rw [List.map_const', List.length_range]

/-- C9 amended: the `changes` of every rebalance event logged by a
simulation step are built from the ALREADY-resized share counts and the
ALREADY-cost-reduced portfolio value (backtest.ts:281-289 before 334-347),
so whenever all prices on the rebalance day are positive, every recorded
per-asset `tradeAmount` is exactly 0 — not the dollar size of the executed
trade.  (When a price is zero or negative its shares are set to 0 instead,
and the recorded `tradeAmount` degenerates to the rounded target value, so
the unconditional form of the claim fails; see the counterexample.) -/
theorem trade_amounts_zero (args : BacktestArgs) (st : SimState) (t : ℕ)
    (hpos : ∀ i < args.tickers.length, 0 < (args.prices.getD i []).getD t 0) :
    ∀ ev ∈ (stepDay args st t).events, ev ∈ st.events ∨
      (ev.changes.map fun ch => ch.tradeAmount)
        = List.replicate args.tickers.length 0 := by
  intro ev hev
  simp only [stepDay] at hev
  split at hev
  · rw [List.mem_append, List.mem_singleton] at hev
    rcases hev with hev | hev
    · exact Or.inl hev
    · right
      subst hev
      show ((mkChanges args.tickers _ (resizeShares _ _ _) _ _ _ _).map
        fun ch => ch.tradeAmount) = _
      apply mkChanges_tradeAmounts
      · rw [List.length_map, List.length_range]
      · intro i hi
        have hieq : ((List.range args.tickers.length).map fun i =>
            (args.prices.getD i []).getD t 0).getD i 0
              = (args.prices.getD i []).getD t 0 := by
          rw [List.getD_eq_getElem _ _ (by simpa using hi)]
          rw [List.getElem_map, List.getElem_range]
        rw [hieq]
        exact hpos i hi
  · exact Or.inl hev

/-- A concrete two-asset daily-rebalanced backtest in which the second
asset's price is 0 on the rebalance day. -/
noncomputable def c9CexArgs : BacktestArgs :=
  { prices := [[1, 1], [1, 0]]
    dividends := [[0, 0], [0, 0]]
    dates := [⟨2020, 1, 2⟩, ⟨2020, 1, 3⟩]
    initialWeights := [1/2, 1/2]
    tickers := [0, 1]
    rebalanceConfig := { frequency := Freq.daily, transactionCost := 0 }
    initialValue := 10000
    reinvestDividends := true
    targetBudgets := none
    lookbackPeriodYears := none
    maintainFixedWeights := true
    useES := false
    outputStartIdx := 0 }

/-- The same backtest with both prices staying at 1. -/
noncomputable def c9WitArgs : BacktestArgs :=
  { c9CexArgs with prices := [[1, 1], [1, 1]] }

/-- C9 witness: the amended statement applied at the concrete rebalance
step of `c9WitArgs` (all prices 1): every event logged by the step carries
per-asset trade amounts that are all zero. -/
theorem trade_amounts_witness :
    (∀ i < c9WitArgs.tickers.length, 0 < (c9WitArgs.prices.getD i []).getD 1 0)
    ∧ ∀ ev ∈ (stepDay c9WitArgs (initState c9WitArgs) 1).events,
        ev ∈ (initState c9WitArgs).events
        ∨ (ev.changes.map fun ch => ch.tradeAmount)
            = List.replicate c9WitArgs.tickers.length 0 := by
  have hpos : ∀ i < c9WitArgs.tickers.length,
      0 < (c9WitArgs.prices.getD i []).getD 1 0 := by
    intro i hi
    have h2 : i < 2 := by simpa [c9WitArgs, c9CexArgs] using hi
    interval_cases i <;> norm_num [c9WitArgs, c9CexArgs, List.getD]
  exact ⟨hpos, trade_amounts_zero c9WitArgs (initState c9WitArgs) 1 hpos⟩

theorem c9_runDays_tradeAmounts :
    ((runDays c9CexArgs).events.map fun ev =>
      ev.changes.map fun ch => ch.tradeAmount) = [[0, 2500]] := by
  have h1 : runDays c9CexArgs = stepDay c9CexArgs (initState c9CexArgs) 1 := rfl
  have h2500 : round2 2500 = 2500 := by
    rw [round2_of_mul_eq_int 2500 250000 (by norm_num)]
    norm_num
  rw [h1]
  simp only [stepDay, initState, computeTargets, mkChanges, resizeShares, c9CexArgs]
  norm_num [List.range_succ, List.getD, h2500, round2_zero, shouldRebalance]

/-- C9 counterexample: in the daily-rebalanced run `c9CexArgs` the second
asset's price is 0 on the rebalance day, so its shares are resized to 0
and the logged `tradeAmount` is the full rounded target value 2500, not 0:
the claim that EVERY recorded `tradeAmount` equals 0 is false. -/
theorem trade_amounts_cex :
    ((runBacktest c9CexArgs).rebalanceDates.map fun ev =>
        ev.changes.map fun ch => ch.tradeAmount) = [[0, 2500]]
    ∧ (2500 : ℝ) ≠ 0 := by
  refine ⟨?_, by norm_num⟩
  have hnot : ¬ c9CexArgs.dates.length < 2 := by norm_num [c9CexArgs]
  have hns : ¬ (0 < min c9CexArgs.outputStartIdx (c9CexArgs.dates.length - 1)) := by
    norm_num [c9CexArgs]
  have hrb : (runBacktest c9CexArgs).rebalanceDates = (runDays c9CexArgs).events := by
    simp only [runBacktest]
    rw [if_neg hnot, if_neg hns]
  rw [hrb, c9_runDays_tradeAmounts]

/-- A trivial zero-date backtest input, exercising the fewer-than-2-dates
branch of `runBacktest`. -/
noncomputable def c10Args : BacktestArgs :=
  { prices := []
    dividends := []
    dates := []
    initialWeights := []
    tickers := []
    rebalanceConfig := { frequency := Freq.daily, transactionCost := 0 }
    initialValue := 100
    reinvestDividends := true
    targetBudgets := none
    lookbackPeriodYears := none
    maintainFixedWeights := true
    useES := false
    outputStartIdx := 0 }

/-- C10 witness: the invariant evaluated at the concrete empty-date input
(where the trivial branch reports drawdown 0) and at a concrete falling
price series for the standalone `calculateMaxDrawdown`. -/
theorem runBacktest_maxDrawdown_nonpos_witness :
    (runBacktest c10Args).maxDrawdown ≤ 0
    ∧ (c10Args.dates.length < 2 ∧ (runBacktest c10Args).maxDrawdown = 0)
    ∧ 0 ≤ calculateMaxDrawdown ([100, 50] : List ℝ) :=
  ⟨runBacktest_maxDrawdown_nonpos.1 c10Args,
    ⟨by norm_num [c10Args],
      runBacktest_maxDrawdown_nonpos.2.1 c10Args (by norm_num [c10Args])⟩,
    runBacktest_maxDrawdown_nonpos.2.2 [100, 50]⟩

end ClaimTheorems

end Port
